import Mathlib

/-!
Verification development for the PAC-MAN 3D simulation core.

The TypeScript sources are embedded shallowly:
* machine numbers used for timers, progress and world coordinates are
  modelled as rationals (`ℚ`); grid indices as integers (`ℤ`);
* `Math.random` is abstracted as an oracle (a stream of naturals consumed
  by the frightened random walk);
* THREE.js meshes, materials, HUD strings and audio events are
  presentation-only and omitted; the world position of an entity is the
  deterministic part of its mesh position (the cosmetic sinusoidal "bob"
  offsets are dropped);
* the JavaScript `Map` keyed by `cellKey(cell)` (an injective encoding of
  the cell) is modelled as an association list keyed by the cell itself.
-/

namespace Pacman

inductive Direction where
  | up
  | down
  | left
  | right
deriving DecidableEq, Repr

/-- Grid position, from Utils.ts: integer (row, col) pair. -/
structure GridPosition where
  row : Int
  col : Int
deriving DecidableEq, Repr

/-- DIRECTIONS iteration order, from Utils.ts. -/
def DIRECTIONS : List Direction := [.up, .down, .left, .right]

/-- DIRECTION_DELTAS, from Utils.ts. -/
def directionDelta : Direction → GridPosition
  | .up => ⟨-1, 0⟩
  | .down => ⟨1, 0⟩
  | .left => ⟨0, -1⟩
  | .right => ⟨0, 1⟩

/-- addDirection, from Utils.ts. -/
def addDirection (p : GridPosition) (d : Direction) : GridPosition :=
  ⟨p.row + (directionDelta d).row, p.col + (directionDelta d).col⟩

/-- oppositeDirection, from Utils.ts. -/
def oppositeDirection : Direction → Direction
  | .up => .down
  | .down => .up
  | .left => .right
  | .right => .left

/-- manhattanDistance, from Utils.ts. -/
def manhattanDistance (a b : GridPosition) : Int :=
  |a.row - b.row| + |a.col - b.col|

/-- MAZE_LAYOUT, from Maze.ts. -/
def MAZE_LAYOUT : List String :=
  [ "#####################",
    "#o........#........o#",
    "#.###.###.#.###.###.#",
    "#.....#...#...#.....#",
    "###.#.#.#####.#.#.###",
    "#...#.#...#...#.#...#",
    "#.###.###.#.###.###.#",
    "#.........P.........#",
    "#.###.#.#####.#.###.#",
    "#.....#...#...#.....#",
    "#####.##.GGG.##.#####",
    "#.....#...G...#.....#",
    "#.###.#.#####.#.###.#",
    "#...#.#...#...#.#...#",
    "###.#.###.#.###.#.###",
    "#.....#...#...#.....#",
    "#.###.###.#.###.###.#",
    "#o..#.....#.....#..o#",
    "#.##.#.#######.#.##.#",
    "#...................#",
    "#####################" ]

/-- layoutSymbolToCell, from Maze.ts: cell values 0..5. -/
def layoutSymbolToCell (symbol : Char) : Nat :=
  if symbol = '#' then 1
  else if symbol = '.' then 2
  else if symbol = 'o' then 3
  else if symbol = 'G' then 4
  else if symbol = 'P' then 5
  else 0

/-- The parsed base grid (Maze.parseLayout); the base grid never changes. -/
def baseGrid : List (List Nat) :=
  MAZE_LAYOUT.map (fun line => line.toList.map layoutSymbolToCell)

/-- Maze rows count (this.rows = baseGrid.length). -/
def mazeRows : Nat := baseGrid.length

/-- Maze cols count (this.cols = baseGrid[0].length). -/
def mazeCols : Nat := (baseGrid.headD []).length

/-- Value of the base grid at a cell; only read after an isInside check in
the source, so the default is irrelevant there (we use the wall value 1). -/
def gridValue (g : List (List Nat)) (cell : GridPosition) : Nat :=
  (g.getD cell.row.toNat []).getD cell.col.toNat 1

/-- Maze.isInside. -/
def isInside (cell : GridPosition) : Bool :=
  decide (0 ≤ cell.row) && decide (cell.row < (mazeRows : Int)) &&
    decide (0 ≤ cell.col) && decide (cell.col < (mazeCols : Int))

/-- Maze.isWall: out-of-bounds counts as wall. -/
def isWall (cell : GridPosition) : Bool :=
  if ¬ isInside cell then true else decide (gridValue baseGrid cell = 1)

/-- Maze.isWalkable. -/
def isWalkable (cell : GridPosition) : Bool :=
  isInside cell && ! isWall cell

/-- Maze.canMove. -/
def canMove (cell : GridPosition) (d : Direction) : Bool :=
  isWalkable (addDirection cell d)

/-- Maze.getAvailableDirections: walkable neighbours in DIRECTIONS order. -/
def getAvailableDirections (cell : GridPosition) : List Direction :=
  DIRECTIONS.filter (fun d => canMove cell d)

/-- All in-bounds cells, used as the finite carrier for BFS termination. -/
def allCells : Finset GridPosition :=
  ((Finset.Icc (0 : Int) (mazeRows - 1)) ×ˢ (Finset.Icc (0 : Int) (mazeCols - 1))).image
    (fun p => ⟨p.1, p.2⟩)

/-- A BFS queue entry, from Maze.findDirectionBFS: the reached cell and the
first-step direction recorded for it. -/
structure BfsEntry where
  cell : GridPosition
  first : Direction
deriving DecidableEq, Repr

/-- One conditional push of the BFS (the body of the direction loops in
findDirectionBFS): push `next` with first-step `first` if it is walkable and
not yet visited, marking it visited. -/
def bfsPush (acc : Finset GridPosition × List BfsEntry) (next : GridPosition)
    (first : Direction) : Finset GridPosition × List BfsEntry :=
  if isWalkable next = true ∧ next ∉ acc.1 then
    (insert next acc.1, acc.2 ++ [⟨next, first⟩])
  else acc

/-- A direction scan of the BFS: iterate over directions, optionally skipping
some (the forbidden first direction in the initial scan), pushing the cell
`nf d` with recorded first direction `ff d`. -/
def bfsScan (skip : Direction → Bool) (nf : Direction → GridPosition)
    (ff : Direction → Direction) :
    List Direction → Finset GridPosition × List BfsEntry →
      Finset GridPosition × List BfsEntry
  | [], acc => acc
  | d :: ds, acc =>
      bfsScan skip nf ff ds (if skip d then acc else bfsPush acc (nf d) (ff d))

/-- The expansion of one dequeued entry in findDirectionBFS's while loop:
push every walkable unvisited neighbour, inheriting the entry's first
direction. -/
def bfsExpand (visited : Finset GridPosition) (e : BfsEntry) :
    Finset GridPosition × List BfsEntry :=
  bfsScan (fun _ => false) (addDirection e.cell) (fun _ => e.first) DIRECTIONS (visited, [])

/-- The initial scan of findDirectionBFS: visited starts as {start}; each
non-forbidden direction with a walkable unvisited target is pushed with
itself as the recorded first direction. -/
def bfsInit (start : GridPosition) (forbidden : Option Direction) :
    Finset GridPosition × List BfsEntry :=
  bfsScan (fun d => decide (forbidden = some d)) (addDirection start) (fun d => d)
    DIRECTIONS ({start}, [])

/-- The while loop of findDirectionBFS: dequeue, return the recorded first
direction when the target is reached, otherwise expand and continue. -/
def bfsLoop (target : GridPosition) (visited : Finset GridPosition)
    (queue : List BfsEntry) : Option Direction :=
  match queue with
  | [] => none
  | e :: rest =>
      if e.cell = target then some e.first
      else bfsLoop target (bfsExpand visited e).1 (rest ++ (bfsExpand visited e).2)
termination_by 2 * (allCells \ visited).card + queue.length
decreasing_by
  simp only [List.length_append, List.length_cons]
  have push_measure : ∀ (acc : Finset GridPosition × List BfsEntry)
      (next : GridPosition) (first : Direction),
      2 * (allCells \ (bfsPush acc next first).1).card +
          (bfsPush acc next first).2.length ≤
        2 * (allCells \ acc.1).card + acc.2.length := by
    intro acc next first
    unfold bfsPush
    by_cases h : isWalkable next = true ∧ next ∉ acc.1
    · simp only [if_pos h, List.length_append, List.length_cons, List.length_nil]
      have hins : next ∈ allCells := by
        have h1 := h.1
        simp only [isWalkable, Bool.and_eq_true] at h1
        have h2 := h1.1
        simp only [isInside, Bool.and_eq_true, decide_eq_true_eq] at h2
        refine Finset.mem_image.mpr ⟨(next.row, next.col), ?_, rfl⟩
        simp only [Finset.mem_product, Finset.mem_Icc]
        omega
      have hmem : next ∈ allCells \ acc.1 := Finset.mem_sdiff.mpr ⟨hins, h.2⟩
      have hcard : (allCells \ insert next acc.1).card =
          (allCells \ acc.1).card - 1 := by
        rw [Finset.sdiff_insert, Finset.card_erase_of_mem hmem]
      have hpos : 1 ≤ (allCells \ acc.1).card := Finset.card_pos.mpr ⟨next, hmem⟩
      omega
    · simp only [if_neg h]
      omega
  have scan_measure : ∀ (skip : Direction → Bool) (nf : Direction → GridPosition)
      (ff : Direction → Direction) (ds : List Direction)
      (acc : Finset GridPosition × List BfsEntry),
      2 * (allCells \ (bfsScan skip nf ff ds acc).1).card +
          (bfsScan skip nf ff ds acc).2.length ≤
        2 * (allCells \ acc.1).card + acc.2.length := by
    intro skip nf ff ds acc
    induction ds generalizing acc with
    | nil => simp [bfsScan]
    | cons d ds ih =>
        simp only [bfsScan]
        by_cases h : skip d
        · simpa [h] using ih acc
        · calc 2 * (allCells \ (bfsScan skip nf ff ds (if skip d then acc
                  else bfsPush acc (nf d) (ff d))).1).card +
                (bfsScan skip nf ff ds (if skip d then acc
                  else bfsPush acc (nf d) (ff d))).2.length
              ≤ 2 * (allCells \ (if skip d then acc
                  else bfsPush acc (nf d) (ff d)).1).card +
                (if skip d then acc else bfsPush acc (nf d) (ff d)).2.length := ih _
            _ ≤ 2 * (allCells \ acc.1).card + acc.2.length := by
                simp only [if_neg h]
                exact push_measure acc (nf d) (ff d)
  have h := scan_measure (fun _ => false) (addDirection e.cell) (fun _ => e.first)
    DIRECTIONS (visited, [])
  simp only [List.length_nil] at h
  unfold bfsExpand
  omega

/-- Maze.findDirectionBFS. -/
def findDirectionBFS (start target : GridPosition)
    (forbidden : Option Direction) : Option Direction :=
  if ¬ (isWalkable start = true) ∨ ¬ (isWalkable target = true) then none
  else if start = target then none
  else bfsLoop target (bfsInit start forbidden).1 (bfsInit start forbidden).2

/-- Specification-side notion of walkable-path distance: `distLeB n x y` holds
iff there is a path of length at most `n` from `x` to `y` whose entered cells
are all walkable (the start cell is not itself checked, matching the BFS). -/
def distLeB : Nat → GridPosition → GridPosition → Bool
  | 0, x, y => decide (x = y)
  | n + 1, x, y =>
      decide (x = y) || DIRECTIONS.any (fun d =>
        isWalkable (addDirection x d) && distLeB n (addDirection x d) y)

/-- Reachability within `n` steps from `a` where the first step respects the
optional forbidden first direction, mirroring the BFS's restriction. -/
def firstReach (f : Option Direction) (a : GridPosition) : Nat → GridPosition → Bool
  | 0, c => decide (c = a)
  | n + 1, c =>
      decide (c = a) || DIRECTIONS.any (fun d =>
        ! decide (f = some d) && isWalkable (addDirection a d) &&
          distLeB n (addDirection a d) c)

/-- Soundness data carried by every queue entry: the recorded first direction
obeys the forbidden-direction restriction, its target cell is walkable, and
the entry's cell is reachable from that target cell. -/
def reachOKEntry (f : Option Direction) (a : GridPosition) (e : BfsEntry) : Prop :=
  f ≠ some e.first ∧ isWalkable (addDirection a e.first) = true ∧
    ∃ n, distLeB n (addDirection a e.first) e.cell = true

/-- Level-order invariant for one queue entry at BFS level `m`: the cell is
walkable, the recorded first step leads to a walkable cell from which the
entry's cell is within `m - 1` steps, and the cell is not reachable from the
start in fewer than `m` steps (it was enqueued at its exact BFS level). -/
def entOK (a : GridPosition) (m : Nat) (e : BfsEntry) : Prop :=
  isWalkable e.cell = true ∧
  isWalkable (addDirection a e.first) = true ∧
  distLeB (m - 1) (addDirection a e.first) e.cell = true ∧
  (∀ k, k < m → distLeB k a e.cell = false) ∧
  1 ≤ m

/-- Full loop invariant of the BFS from `a` looking for `b` with no forbidden
first direction: the queue splits into a level-`m` prefix and a level-`m+1`
suffix, every cell within `m` steps of the start is already visited, the
visited set is exactly the start plus the processed cells plus the queued
cells, processed cells have all their walkable neighbours visited, and the
target has not been processed. -/
def bfsInv (a b : GridPosition) (V : Finset GridPosition)
    (queue : List BfsEntry) : Prop :=
  ∃ P : Finset GridPosition, ∃ m : Nat, ∃ q1 q2 : List BfsEntry,
    queue = q1 ++ q2 ∧
    (∀ e ∈ q1, entOK a m e) ∧
    (∀ e ∈ q2, entOK a (m + 1) e) ∧
    (∀ c, isWalkable c = true → distLeB m a c = true → c ∈ V) ∧
    (∀ c, c ∈ V ↔ c = a ∨ c ∈ P ∨ (∃ e ∈ q1, e.cell = c) ∨
      (∃ e ∈ q2, e.cell = c)) ∧
    (∀ y ∈ P, ∀ d, isWalkable (addDirection y d) = true → addDirection y d ∈ V) ∧
    (∀ d, isWalkable (addDirection a d) = true → addDirection a d ∈ V) ∧
    b ∉ P ∧ b ≠ a

/-- Pellet kind, from Maze.ts. -/
inductive PelletKind where
  | pellet
  | power
deriving DecidableEq, Repr

/-- Lookup in the pellet map; the JS Map is keyed by cellKey(cell), an
injective string encoding of the cell, modelled as an association list
keyed by the cell itself. -/
def lookupPellet : List (GridPosition × PelletKind) → GridPosition → Option PelletKind
  | [], _ => none
  | p :: ps, cell => if p.1 = cell then some p.2 else lookupPellet ps cell

/-- The mutable overlay state of the maze: the per-match grid clone and the
pellet map (meshes and render bookkeeping omitted). -/
structure MazeItems where
  grid : List (List Nat)
  pellets : List (GridPosition × PelletKind)
deriving DecidableEq, Repr

/-- Write one cell of the overlay grid. -/
def setGridCell (g : List (List Nat)) (cell : GridPosition) (v : Nat) :
    List (List Nat) :=
  g.set cell.row.toNat ((g.getD cell.row.toNat []).set cell.col.toNat v)

/-- Maze.getCellValue on the overlay grid. -/
def getCellValue (m : MazeItems) (cell : GridPosition) : Nat :=
  if ¬ isInside cell = true then 1 else gridValue m.grid cell

/-- Maze.consumePelletAt: returns the removed pellet kind (if any) paired
with the updated overlay state. -/
def consumePelletAt (m : MazeItems) (cell : GridPosition) :
    Option PelletKind × MazeItems :=
  if ¬ isInside cell = true then (none, m)
  else
    match lookupPellet m.pellets cell with
    | none => (none, m)
    | some kind =>
        (some kind,
          { grid :=
              if gridValue m.grid cell = 2 ∨ gridValue m.grid cell = 3 then
                setGridCell m.grid cell 0
              else m.grid,
            pellets := m.pellets.filter (fun p => ! decide (p.1 = cell)) })

/-- Maze.getRemainingPellets (this.pellets.size). -/
def getRemainingPellets (m : MazeItems) : Nat := m.pellets.length

/-- Maze.rebuildPellets: scan the overlay grid in row-major order collecting
pellet and power-pellet cells. -/
def pelletsOfGrid (g : List (List Nat)) : List (GridPosition × PelletKind) :=
  (List.range mazeRows).flatMap (fun row =>
    (List.range mazeCols).filterMap (fun col =>
      if gridValue g ⟨row, col⟩ = 2 then some (⟨row, col⟩, PelletKind.pellet)
      else if gridValue g ⟨row, col⟩ = 3 then some (⟨row, col⟩, PelletKind.power)
      else none))

/-- Maze.resetPellets: restore the overlay grid to the base grid and rebuild
the pellet map from it. -/
def resetPellets (_ : MazeItems) : MazeItems :=
  { grid := baseGrid, pellets := pelletsOfGrid baseGrid }

/-- The overlay state right after maze construction. -/
def initialMazeItems : MazeItems :=
  { grid := baseGrid, pellets := pelletsOfGrid baseGrid }

/-- Cells of the base grid holding a given value, in parseLayout scan order. -/
def findCells (v : Nat) : List GridPosition :=
  (List.range mazeRows).flatMap (fun row =>
    (List.range mazeCols).filterMap (fun col =>
      if gridValue baseGrid ⟨row, col⟩ = v then some ⟨row, col⟩ else none))

/-- The player spawn (layout marker P, value 5; parseLayout keeps the last
hit, and the layout has exactly one). -/
def playerSpawn : GridPosition := (findCells 5).getLastD ⟨0, 0⟩

/-- The ghost spawns (layout marker G, value 4) in scan order. -/
def ghostSpawns : List GridPosition := findCells 4

/-- Player movement speed, tiles per second (Player.ts). -/
def playerSpeed : ℚ := 6

/-- The player's simulation state (Player.ts); meshes, chomp animation and
lighting are presentation-only and omitted. -/
structure Player where
  currentCell : GridPosition
  fromCell : GridPosition
  toCell : Option GridPosition
  currentDirection : Option Direction
  bufferedDirection : Option Direction
  progressToNext : ℚ
deriving DecidableEq, Repr

/-- The player state established by the constructor. -/
def Player.initial : Player :=
  ⟨playerSpawn, playerSpawn, none, none, none, 0⟩

/-- Player.reset. -/
def Player.reset (_ : Player) : Player :=
  ⟨playerSpawn, playerSpawn, none, none, none, 0⟩

/-- Player.queueDirection: overwrites any previously queued intent. -/
def Player.queueDirection (d : Direction) (p : Player) : Player :=
  { p with bufferedDirection := some d }

/-- Player.getCell: the last fully settled cell. -/
def Player.getCell (p : Player) : GridPosition := p.currentCell

/-- Player.resolveNextDirection: prefer the buffered intent when walkable
(consuming the buffer), else keep the current facing when still walkable,
else none. Returns the chosen direction with the updated state. -/
def Player.resolveNextDirection (p : Player) : Option Direction × Player :=
  let p1 := match p.bufferedDirection with
    | some bd =>
        if canMove p.currentCell bd = true then
          { p with currentDirection := some bd, bufferedDirection := none }
        else p
    | none => p
  let p2 := match p1.currentDirection with
    | some cd =>
        if ¬ canMove p1.currentCell cd = true then
          { p1 with currentDirection := none }
        else p1
    | none => p1
  (p2.currentDirection, p2)

/-- Player.beginStep. -/
def Player.beginStep (d : Direction) (p : Player) : Player :=
  { p with
    fromCell := p.currentCell,
    toCell := some (addDirection p.currentCell d),
    progressToNext := 0,
    currentDirection := some d }

/-- Player.finishStep. -/
def Player.finishStep (p : Player) : Player :=
  match p.toCell with
  | none => p
  | some t =>
      { p with
        currentCell := t,
        fromCell := t,
        toCell := none,
        progressToNext := 0 }

/-- The while loop of Player.update: at each boundary resolve a direction
(breaking when none), then consume either a whole step or the remaining
time. -/
def Player.moveLoop : Nat → ℚ → Player → Player
  | 0, _, p => p
  | fuel + 1, remaining, p =>
      if remaining ≤ 0 then p
      else
        match p.toCell with
        | some _ =>
            if (1 - p.progressToNext) / playerSpeed ≤ remaining then
              Player.moveLoop fuel (remaining - (1 - p.progressToNext) / playerSpeed)
                (Player.finishStep p)
            else
              { p with
                progressToNext := p.progressToNext + remaining * playerSpeed }
        | none =>
            match (Player.resolveNextDirection p).1 with
            | none => (Player.resolveNextDirection p).2
            | some dir =>
                if (1 - (Player.beginStep dir (Player.resolveNextDirection p).2).progressToNext)
                    / playerSpeed ≤ remaining then
                  Player.moveLoop fuel
                    (remaining - (1 - (Player.beginStep dir (Player.resolveNextDirection p).2).progressToNext) / playerSpeed)
                    (Player.finishStep (Player.beginStep dir (Player.resolveNextDirection p).2))
                else
                  { Player.beginStep dir (Player.resolveNextDirection p).2 with
                    progressToNext :=
                      (Player.beginStep dir (Player.resolveNextDirection p).2).progressToNext +
                        remaining * playerSpeed }

/-- Player.update. The fuel argument bounds the iteration count of the
step-subdivision while loop, an artifact of the embedding: the source loop
terminates on its own (each iteration after the first consumes 1/speed
seconds or ends), and every property proved below holds for every fuel. -/
def Player.update (fuel : Nat) (deltaSeconds : ℚ) (p : Player) : Player :=
  Player.moveLoop fuel deltaSeconds p

/-- Ghost behaviour states, from Ghost.ts. -/
inductive GhostState where
  | chase
  | scatter
  | frightened
  | respawn
deriving DecidableEq, Repr

/-- Global ghost mode, from Utils.ts (chase or scatter only). -/
inductive GhostMode where
  | chase
  | scatter
deriving DecidableEq, Repr

/-- A global mode seen as a behaviour state. -/
def GhostMode.toState : GhostMode → GhostState
  | .chase => .chase
  | .scatter => .scatter

/-- Ghost speeds (Ghost.ts): moveSpeed 4.8, frightenedSpeed 3,
respawnSpeed 6.8. -/
def ghostMoveSpeed : ℚ := 24 / 5

def ghostFrightenedSpeed : ℚ := 3

def ghostRespawnSpeed : ℚ := 34 / 5

/-- The ghost's simulation state (Ghost.ts); meshes, colours and the bob
animation are presentation-only and omitted. -/
structure Ghost where
  spawnCell : GridPosition
  homeCell : GridPosition
  scatterTarget : GridPosition
  currentCell : GridPosition
  fromCell : GridPosition
  toCell : Option GridPosition
  currentDirection : Option Direction
  progressToNext : ℚ
  desiredMode : GhostMode
  state : GhostState
  frightenedTimer : ℚ
  respawnDelay : ℚ
deriving DecidableEq, Repr

/-- Ghost.reset. -/
def Ghost.reset (mode : GhostMode) (g : Ghost) : Ghost :=
  { g with
    desiredMode := mode,
    state := mode.toState,
    frightenedTimer := 0,
    respawnDelay := 0,
    currentCell := g.spawnCell,
    fromCell := g.spawnCell,
    toCell := none,
    currentDirection := none,
    progressToNext := 0 }

/-- Ghost.setMode: records the desired mode; takes effect immediately only
in chase or scatter. -/
def Ghost.setMode (mode : GhostMode) (g : Ghost) : Ghost :=
  if g.state = .chase ∨ g.state = .scatter then
    { g with desiredMode := mode, state := mode.toState }
  else { g with desiredMode := mode }

/-- Ghost.setFrightened: ignored during respawn; otherwise enter frightened
and extend the timer to at least the given duration. -/
def Ghost.setFrightened (durationSeconds : ℚ) (g : Ghost) : Ghost :=
  if g.state = .respawn then g
  else
    { g with
      state := .frightened,
      frightenedTimer := max g.frightenedTimer durationSeconds }

/-- Ghost.onEaten. -/
def Ghost.onEaten (g : Ghost) : Ghost :=
  { g with
    state := .respawn,
    frightenedTimer := 0,
    respawnDelay := 7 / 10,
    currentDirection := none,
    toCell := none,
    progressToNext := 0,
    fromCell := g.currentCell }

/-- Ghost.getSpeed. -/
def Ghost.getSpeed (g : Ghost) : ℚ :=
  match g.state with
  | .frightened => ghostFrightenedSpeed
  | .respawn => ghostRespawnSpeed
  | _ => ghostMoveSpeed

/-- Ghost.resolveTarget. -/
def Ghost.resolveTarget (playerCell : GridPosition) (g : Ghost) : GridPosition :=
  match g.state with
  | .respawn => g.homeCell
  | .chase => playerCell
  | _ => g.scatterTarget

/-- The locally greedy fallback of Ghost.chooseDirection: best distance
starts at positive infinity (modelled as none) and is strictly improved, so
the first direction achieving the minimum wins. -/
def greedyBest (base target : GridPosition) (usable : List Direction) : Direction :=
  (usable.foldl (fun acc d =>
      match acc.2 with
      | none => (d, some (manhattanDistance (addDirection base d) target))
      | some bd =>
          if manhattanDistance (addDirection base d) target < bd then
            (d, some (manhattanDistance (addDirection base d) target))
          else acc)
    (usable.headD .up, (none : Option Int))).1

/-- Ghost.chooseDirection; Math.random inside randomItem is abstracted by
the oracle value r, picking index r mod the number of options. -/
def Ghost.chooseDirection (r : Nat) (playerCell : GridPosition) (g : Ghost) :
    Option Direction :=
  let options := getAvailableDirections g.currentCell
  if options.length = 0 then none
  else if g.state = .frightened then some (options.getD (r % options.length) .up)
  else
    let forbidden : Option Direction :=
      match g.currentDirection with
      | some cd =>
          if options.length > 1 then some (oppositeDirection cd) else none
      | none => none
    let target := Ghost.resolveTarget playerCell g
    match findDirectionBFS g.currentCell target forbidden with
    | some d => some d
    | none =>
        let fallbackOptions :=
          match forbidden with
          | some f => options.filter (fun d => ! decide (d = f))
          | none => options
        let usableOptions :=
          if fallbackOptions.length > 0 then fallbackOptions else options
        some (greedyBest g.currentCell target usableOptions)

/-- Ghost.beginStep. -/
def Ghost.beginStep (d : Direction) (g : Ghost) : Ghost :=
  { g with
    fromCell := g.currentCell,
    toCell := some (addDirection g.currentCell d),
    currentDirection := some d,
    progressToNext := 0 }

/-- Ghost.finishStep. -/
def Ghost.finishStep (g : Ghost) : Ghost :=
  match g.toCell with
  | none => g
  | some t =>
      { g with
        currentCell := t,
        fromCell := t,
        toCell := none,
        progressToNext := 0 }

/-- The movement while loop of Ghost.update: at a boundary, first resolve a
completed recovery (respawn at home reverts to the desired mode), then pick
a direction; each iteration consumes a whole step or the remaining time. -/
def Ghost.moveLoop : List Nat → Nat → ℚ → GridPosition → Ghost → Ghost
  | _, 0, _, _, g => g
  | rng, fuel + 1, remaining, playerCell, g =>
      if remaining ≤ 0 then g
      else
        match g.toCell with
        | some _ =>
            if (1 - g.progressToNext) / g.getSpeed ≤ remaining then
              Ghost.moveLoop rng fuel
                (remaining - (1 - g.progressToNext) / g.getSpeed) playerCell
                (Ghost.finishStep g)
            else
              { g with
                progressToNext := g.progressToNext + remaining * g.getSpeed }
        | none =>
            let g1 := if g.state = .respawn ∧ g.currentCell = g.homeCell then
                { g with state := g.desiredMode.toState }
              else g
            match Ghost.chooseDirection (rng.headD 0) playerCell g1 with
            | none => g1
            | some d =>
                if (1 - (Ghost.beginStep d g1).progressToNext) /
                    (Ghost.beginStep d g1).getSpeed ≤ remaining then
                  Ghost.moveLoop rng.tail fuel
                    (remaining - (1 - (Ghost.beginStep d g1).progressToNext) /
                      (Ghost.beginStep d g1).getSpeed) playerCell
                    (Ghost.finishStep (Ghost.beginStep d g1))
                else
                  { Ghost.beginStep d g1 with
                    progressToNext :=
                      (Ghost.beginStep d g1).progressToNext +
                        remaining * (Ghost.beginStep d g1).getSpeed }

/-- Ghost.update: tick the frightened timer (reverting to the desired mode
on expiry), then either sit out the respawn hold delay or move. -/
def Ghost.update (rng : List Nat) (fuel : Nat) (deltaSeconds : ℚ)
    (playerCell : GridPosition) (g : Ghost) : Ghost :=
  let g1 := if g.state = .frightened then
      (if g.frightenedTimer - deltaSeconds ≤ 0 then
        { g with
          frightenedTimer := g.frightenedTimer - deltaSeconds,
          state := g.desiredMode.toState }
      else { g with frightenedTimer := g.frightenedTimer - deltaSeconds })
    else g
  if g1.state = .respawn ∧ g1.respawnDelay > 0 then
    { g1 with respawnDelay := max 0 (g1.respawnDelay - deltaSeconds) }
  else
    Ghost.moveLoop rng fuel deltaSeconds playerCell g1

/-- Control-field relation between a ghost state and one derived from it by
movement: the frightened timer, desired mode and respawn delay are
unchanged, and the behaviour state is either unchanged or, when the ghost
was in respawn, flipped to the desired mode. -/
def ghostCtrlRel (g h : Ghost) : Prop :=
  h.frightenedTimer = g.frightenedTimer ∧ h.desiredMode = g.desiredMode ∧
  h.respawnDelay = g.respawnDelay ∧
  (h.state = g.state ∨ (h.state = g.desiredMode.toState ∧ g.state = .respawn))

/-- The interpolation invariant of a mobile entity (player): progress lies
in the unit interval and is zero exactly when no target cell is set. -/
def playerMotionInv (p : Player) : Prop :=
  0 ≤ p.progressToNext ∧ p.progressToNext ≤ 1 ∧
    (p.toCell = none ↔ p.progressToNext = 0)

/-- The interpolation invariant of a mobile entity (ghost). -/
def ghostMotionInv (g : Ghost) : Prop :=
  0 ≤ g.progressToNext ∧ g.progressToNext ≤ 1 ∧
    (g.toCell = none ↔ g.progressToNext = 0)

/-- Maze.gridToWorld with tileSize 1 (the Game constructs Maze(1)): the
continuous-space centre of a cell at a given height. -/
def gridToWorldQ (cell : GridPosition) (y : ℚ) : ℚ × ℚ × ℚ :=
  (((cell.col : ℚ) - (mazeCols : ℚ) / 2 + 1 / 2), y,
    ((cell.row : ℚ) - (mazeRows : ℚ) / 2 + 1 / 2))

/-- Componentwise linear interpolation (THREE.Vector3.lerpVectors). -/
def lerpQ (a b : ℚ × ℚ × ℚ) (t : ℚ) : ℚ × ℚ × ℚ :=
  (a.1 + (b.1 - a.1) * t, a.2.1 + (b.2.1 - a.2.1) * t,
    a.2.2 + (b.2.2 - a.2.2) * t)

/-- The player's mesh height: radius = 0.34 · tileSize. -/
def playerRadius : ℚ := 17 / 50

/-- The ghost's mesh height used by syncMeshPosition: 0.35. -/
def ghostHeight : ℚ := 7 / 20

/-- The player's continuous world position (Player.syncMeshTransform without
the cosmetic chomp bob, which this embedding omits). -/
def Player.worldPosition (p : Player) : ℚ × ℚ × ℚ :=
  match p.toCell with
  | some t =>
      lerpQ (gridToWorldQ p.fromCell playerRadius) (gridToWorldQ t playerRadius)
        p.progressToNext
  | none => gridToWorldQ p.currentCell playerRadius

/-- The ghost's continuous world position (Ghost.syncMeshPosition without
the cosmetic bob, which this embedding omits). -/
def Ghost.worldPosition (g : Ghost) : ℚ × ℚ × ℚ :=
  match g.toCell with
  | some t =>
      lerpQ (gridToWorldQ g.fromCell ghostHeight) (gridToWorldQ t ghostHeight)
        g.progressToNext
  | none => gridToWorldQ g.currentCell ghostHeight

/-- Match phases, from Utils.ts (GameState). -/
inductive GameState where
  | ready
  | countdown
  | playing
  | gameover
  | win
deriving DecidableEq, Repr

/-- STARTING_LIVES, from Game.ts. -/
def STARTING_LIVES : Int := 3

/-- FRIGHTENED_DURATION, from Game.ts. -/
def FRIGHTENED_DURATION : ℚ := 8

/-- COLLISION_DISTANCE, from Game.ts: 0.52. -/
def COLLISION_DISTANCE : ℚ := 13 / 25

/-- MODE_SCHEDULE, from Game.ts; Number.POSITIVE_INFINITY is modelled as
none. -/
def MODE_SCHEDULE : List (GhostMode × Option ℚ) :=
  [(.scatter, some 7), (.chase, some 20), (.scatter, some 7),
    (.chase, some 20), (.scatter, some 5), (.chase, none)]

/-- The simulation-relevant state of the Game class; rendering, camera, HUD,
audio and input plumbing are presentation-only and omitted, as is the
readyMessage string. -/
structure Game where
  state : GameState
  score : Nat
  lives : Int
  countdownRemaining : ℚ
  scheduleIndex : Nat
  scheduleElapsed : ℚ
  ghostMode : GhostMode
  maze : MazeItems
  player : Player
  ghosts : List Ghost
deriving DecidableEq, Repr

/-- Squared Euclidean distance between world positions. The source compares
the distance itself with COLLISION_DISTANCE; both sides are nonnegative so
this embedding equivalently compares squares. -/
def distSqQ (a b : ℚ × ℚ × ℚ) : ℚ :=
  (a.1 - b.1) ^ 2 + (a.2.1 - b.2.1) ^ 2 + (a.2.2 - b.2.2) ^ 2

/-- Game.resetRoundPositions. -/
def Game.resetRoundPositions (G : Game) : Game :=
  { G with
    player := Player.reset G.player,
    ghosts := G.ghosts.map (Ghost.reset G.ghostMode) }

/-- Game.resetModeSchedule. -/
def Game.resetModeSchedule (G : Game) : Game :=
  { G with
    scheduleIndex := 0,
    scheduleElapsed := 0,
    ghostMode := (MODE_SCHEDULE.headD (.chase, none)).1,
    ghosts := G.ghosts.map (Ghost.setMode (MODE_SCHEDULE.headD (.chase, none)).1) }

/-- Game.handlePlayerHit. -/
def Game.handlePlayerHit (G : Game) : Game :=
  let G1 := { G with lives := G.lives - 1 }
  if G1.lives ≤ 0 then { G1 with state := .gameover }
  else
    Game.resetModeSchedule (Game.resetRoundPositions { G1 with state := .ready })

/-- The per-ghost loop of Game.resolveCollisions; acc holds the already
scanned ghosts in reverse order. A hit on a pursuing or patrolling ghost
calls handlePlayerHit and returns immediately, so at most one hit is
processed per tick. -/
def Game.collideLoop (playerPos : ℚ × ℚ × ℚ) (G : Game) (acc : List Ghost) :
    List Ghost → Game
  | [] => { G with ghosts := acc.reverse }
  | gh :: rest =>
      if distSqQ playerPos gh.worldPosition > COLLISION_DISTANCE ^ 2 then
        Game.collideLoop playerPos G (gh :: acc) rest
      else if gh.state = .frightened then
        Game.collideLoop playerPos { G with score := G.score + 200 }
          (Ghost.onEaten gh :: acc) rest
      else if gh.state = .respawn then
        Game.collideLoop playerPos G (gh :: acc) rest
      else
        Game.handlePlayerHit { G with ghosts := acc.reverse ++ gh :: rest }

/-- Game.resolveCollisions. -/
def Game.resolveCollisions (G : Game) : Game :=
  Game.collideLoop (Player.worldPosition G.player) G [] G.ghosts

/-- The item-pickup phase of Game.updateSimulation: advance the player, then
consume the pellet at the settled cell and apply its effects (scoring and,
for a power item, frightening every ghost). -/
def Game.pickupPhase (fuel : Nat) (delta : ℚ) (G : Game) : Game :=
  let player := Player.update fuel delta G.player
  let consumed := consumePelletAt G.maze (Player.getCell player)
  match consumed.1 with
  | some .pellet =>
      { G with player := player, maze := consumed.2, score := G.score + 10 }
  | some .power =>
      { G with
        player := player,
        maze := consumed.2,
        score := G.score + 50,
        ghosts := G.ghosts.map (Ghost.setFrightened FRIGHTENED_DURATION) }
  | none => { G with player := player, maze := consumed.2 }

/-- Game.updateSimulation (audio events are fire-and-forget and omitted). -/
def Game.updateSimulation (rng : List Nat) (fuel : Nat) (delta : ℚ)
    (G : Game) : Game :=
  if getRemainingPellets (Game.pickupPhase fuel delta G).maze = 0 then
    { Game.pickupPhase fuel delta G with state := .win }
  else
    Game.resolveCollisions
      { Game.pickupPhase fuel delta G with
        ghosts := (Game.pickupPhase fuel delta G).ghosts.map
          (Ghost.update rng fuel delta
            (Player.getCell (Game.pickupPhase fuel delta G).player)) }

/-- A ghost that triggers an agent hit in the collision scan: within the
collision distance and in chase or scatter. -/
def ghostHits (pos : ℚ × ℚ × ℚ) (gh : Ghost) : Prop :=
  ¬ distSqQ pos gh.worldPosition > COLLISION_DISTANCE ^ 2 ∧
    (gh.state = .chase ∨ gh.state = .scatter)

/-- A settled player standing on cell (7, 10). -/
def wPlayer4 : Player := ⟨⟨7, 10⟩, ⟨7, 10⟩, none, none, none, 0⟩

/-- A chasing ghost settled on the player's cell. -/
def wGhost4 : Ghost :=
  ⟨⟨10, 9⟩, ⟨10, 10⟩, ⟨1, 1⟩, ⟨7, 10⟩, ⟨7, 10⟩, none, none, 0, .chase, .chase,
    0, 0⟩

/-- A playing game with three lives and a chasing ghost on the player. -/
def wGame4 : Game :=
  ⟨.playing, 7, 3, 0, 0, 0, .scatter, initialMazeItems, wPlayer4, [wGhost4]⟩

/-- The same game down to its last life. -/
def wGame4go : Game := { wGame4 with lives := 1 }

/-- An overlay with a power pellet on the player's cell and one more pellet
elsewhere. -/
def wMaze3 : MazeItems := ⟨baseGrid, [(⟨1, 1⟩, .power), (⟨3, 1⟩, .pellet)]⟩

/-- A settled player standing on cell (1, 1). -/
def wPlayer3 : Player := ⟨⟨1, 1⟩, ⟨1, 1⟩, none, none, none, 0⟩

/-- A scattering ghost away from the player. -/
def wGhost3a : Ghost :=
  ⟨⟨10, 9⟩, ⟨10, 10⟩, ⟨1, 19⟩, ⟨10, 9⟩, ⟨10, 9⟩, none, none, 0, .scatter,
    .scatter, 0, 0⟩

/-- A respawning ghost away from the player. -/
def wGhost3b : Ghost :=
  ⟨⟨10, 11⟩, ⟨10, 10⟩, ⟨19, 1⟩, ⟨10, 10⟩, ⟨10, 10⟩, none, none, 0, .scatter,
    .respawn, 0, 0⟩

/-- A playing game whose player stands on the power pellet of wMaze3. -/
def wGame3 : Game :=
  ⟨.playing, 7, 3, 0, 0, 0, .scatter, wMaze3, wPlayer3, [wGhost3a, wGhost3b]⟩

/-- An overlay reduced to a single pellet, on the player's cell. -/
def wMaze5 : MazeItems := ⟨baseGrid, [(⟨1, 1⟩, .power)]⟩

/-- The game of wGame3 with only that last pellet left. -/
def wGame5 : Game := { wGame3 with maze := wMaze5 }

theorem isInside_mem_allCells {c : GridPosition} (h : isInside c = true) : c ∈ allCells := by
  simp only [isInside, Bool.and_eq_true, decide_eq_true_eq] at h
  refine Finset.mem_image.mpr ⟨(c.row, c.col), ?_, rfl⟩
  simp only [Finset.mem_product, Finset.mem_Icc]
  omega

theorem isWalkable_isInside {c : GridPosition} (h : isWalkable c = true) : isInside c = true := by
  simp only [isWalkable, Bool.and_eq_true] at h
  exact h.1

theorem isWalkable_mem_allCells {c : GridPosition} (h : isWalkable c = true) : c ∈ allCells :=
  isInside_mem_allCells (isWalkable_isInside h)

theorem mem_DIRECTIONS (d : Direction) : d ∈ DIRECTIONS := by
  cases d <;> simp [DIRECTIONS]

theorem distLeB_zero {x y : GridPosition} : distLeB 0 x y = true ↔ x = y := by
  simp [distLeB]

theorem distLeB_succ_iff {n : Nat} {x y : GridPosition} :
    distLeB (n + 1) x y = true ↔
      x = y ∨ ∃ d, isWalkable (addDirection x d) = true ∧
        distLeB n (addDirection x d) y = true := by
  simp only [distLeB, Bool.or_eq_true, decide_eq_true_eq, List.any_eq_true,
    Bool.and_eq_true]
  constructor
  · rintro (h | ⟨d, _, h1, h2⟩)
    · exact Or.inl h
    · exact Or.inr ⟨d, h1, h2⟩
  · rintro (h | ⟨d, h1, h2⟩)
    · exact Or.inl h
    · exact Or.inr ⟨d, mem_DIRECTIONS d, h1, h2⟩

theorem distLeB_refl (n : Nat) (x : GridPosition) : distLeB n x x = true := by
  cases n <;> simp [distLeB]

theorem distLeB_cons {n : Nat} {x y : GridPosition} (d : Direction)
    (hw : isWalkable (addDirection x d) = true)
    (h : distLeB n (addDirection x d) y = true) : distLeB (n + 1) x y = true :=
  distLeB_succ_iff.mpr (Or.inr ⟨d, hw, h⟩)

theorem distLeB_succ_of {n : Nat} {x y : GridPosition}
    (h : distLeB n x y = true) : distLeB (n + 1) x y = true := by
  induction n generalizing x with
  | zero => rw [distLeB_zero] at h; subst h; exact distLeB_refl 1 x
  | succ n ih =>
      rcases distLeB_succ_iff.mp h with h | ⟨d, hw, h'⟩
      · subst h; exact distLeB_refl (n + 2) x
      · exact distLeB_cons d hw (ih h')

theorem distLeB_mono {m n : Nat} {x y : GridPosition} (hmn : m ≤ n)
    (h : distLeB m x y = true) : distLeB n x y = true := by
  induction n with
  | zero =>
      have hm : m = 0 := by omega
      subst hm; exact h
  | succ n ih =>
      rcases Nat.lt_or_ge m (n + 1) with hlt | hge
      · exact distLeB_succ_of (ih (by omega))
      · have : m = n + 1 := by omega
        subst this; exact h

theorem distLeB_append {n : Nat} {x y : GridPosition} (d : Direction)
    (h : distLeB n x y = true)
    (hw : isWalkable (addDirection y d) = true) :
    distLeB (n + 1) x (addDirection y d) = true := by
  induction n generalizing x with
  | zero =>
      rw [distLeB_zero] at h; subst h
      exact distLeB_cons d hw (distLeB_refl 0 _)
  | succ n ih =>
      rcases distLeB_succ_iff.mp h with h | ⟨d', hw', h'⟩
      · subst h; exact distLeB_cons d hw (distLeB_refl (n + 1) _)
      · exact distLeB_cons d' hw' (ih h')

theorem distLeB_snoc {n : Nat} {x c : GridPosition}
    (h : distLeB (n + 1) x c = true) :
    distLeB n x c = true ∨
      ∃ y d, (isWalkable y = true ∨ y = x) ∧ distLeB n x y = true ∧
        c = addDirection y d ∧ isWalkable c = true := by
  induction n generalizing x with
  | zero =>
      rcases distLeB_succ_iff.mp h with h | ⟨d, hw, h'⟩
      · exact Or.inl (distLeB_zero.mpr h)
      · rw [distLeB_zero] at h'
        exact Or.inr ⟨x, d, Or.inr rfl, distLeB_refl 0 x, h'.symm, h' ▸ hw⟩
  | succ n ih =>
      rcases distLeB_succ_iff.mp h with h | ⟨d, hw, h'⟩
      · subst h; exact Or.inl (distLeB_refl (n + 1) x)
      · rcases ih h' with h'' | ⟨y, d', hy, hdist, hc, hwc⟩
        · exact Or.inl (distLeB_cons d hw h'')
        · refine Or.inr ⟨y, d', ?_, distLeB_cons d hw hdist, hc, hwc⟩
          rcases hy with hy | hy
          · exact Or.inl hy
          · exact Or.inl (hy ▸ hw)

theorem reach_mem_closed {V : Finset GridPosition} {a : GridPosition}
    (ha : a ∈ V)
    (hcl : ∀ y ∈ V, ∀ d, isWalkable (addDirection y d) = true → addDirection y d ∈ V) :
    ∀ n c, (isWalkable c = true ∨ c = a) → distLeB n a c = true → c ∈ V := by
  intro n
  induction n with
  | zero =>
      intro c _ h
      rw [distLeB_zero] at h
      exact h ▸ ha
  | succ n ih =>
      intro c hc h
      rcases distLeB_snoc h with h | ⟨y, d, hy, hdist, hcd, hwc⟩
      · exact ih c hc h
      · have hymem : y ∈ V := by
          rcases hy with hy | hy
          · exact ih y (Or.inl hy) hdist
          · exact hy ▸ ha
        subst hcd
        exact hcl y hymem d hwc

/-- Structure of a direction scan: the queue grows by a suffix `new` of
entries that are walkable, previously unvisited, and stem from a scanned
direction; the visited set grows by exactly their cells; and every
non-skipped walkable scan target ends up visited. -/
theorem bfsScan_spec (skip : Direction → Bool) (nf : Direction → GridPosition)
    (ff : Direction → Direction) (ds : List Direction)
    (acc : Finset GridPosition × List BfsEntry) :
    ∃ new : List BfsEntry,
      (bfsScan skip nf ff ds acc).2 = acc.2 ++ new ∧
      (∀ c, c ∈ (bfsScan skip nf ff ds acc).1 ↔
        c ∈ acc.1 ∨ ∃ e ∈ new, e.cell = c) ∧
      (∀ e ∈ new, isWalkable e.cell = true ∧ e.cell ∉ acc.1 ∧
        ∃ d ∈ ds, skip d = false ∧ e.cell = nf d ∧ e.first = ff d) ∧
      (∀ d ∈ ds, skip d = false → isWalkable (nf d) = true →
        nf d ∈ (bfsScan skip nf ff ds acc).1) := by
  induction ds generalizing acc with
  | nil =>
      refine ⟨[], by simp [bfsScan], by simp [bfsScan], by simp, by simp⟩
  | cons d ds ih =>
      by_cases hd : skip d = true
      · obtain ⟨new, h1, h2, h3, h4⟩ := ih acc
        refine ⟨new, ?_, ?_, ?_, ?_⟩
        · simpa [bfsScan, hd] using h1
        · simpa [bfsScan, hd] using h2
        · intro e he
          obtain ⟨he1, he2, d', hd', he3⟩ := h3 e he
          exact ⟨he1, he2, d', List.mem_cons_of_mem d hd', he3⟩
        · intro d' hd' hskip hw
          rcases List.mem_cons.mp hd' with rfl | hd'
          · rw [hd] at hskip; cases hskip
          · simpa [bfsScan, hd] using h4 d' hd' hskip hw
      · rw [Bool.not_eq_true] at hd
        by_cases hp : isWalkable (nf d) = true ∧ nf d ∉ acc.1
        · obtain ⟨new, h1, h2, h3, h4⟩ :=
            ih (insert (nf d) acc.1, acc.2 ++ [⟨nf d, ff d⟩])
          have hacc : (if skip d = true then acc else bfsPush acc (nf d) (ff d)) =
              (insert (nf d) acc.1, acc.2 ++ [⟨nf d, ff d⟩]) := by
            simp [hd, bfsPush, hp]
          refine ⟨⟨nf d, ff d⟩ :: new, ?_, ?_, ?_, ?_⟩
          · simp only [bfsScan, hacc] at h1 ⊢
            simpa using h1
          · intro c
            simp only [bfsScan, hacc] at h2 ⊢
            rw [h2 c]
            simp only [Finset.mem_insert, List.mem_cons]
            constructor
            · rintro ((rfl | hc) | ⟨e, he, hec⟩)
              · exact Or.inr ⟨⟨nf d, ff d⟩, Or.inl rfl, rfl⟩
              · exact Or.inl hc
              · exact Or.inr ⟨e, Or.inr he, hec⟩
            · rintro (hc | ⟨e, (rfl | he), hec⟩)
              · exact Or.inl (Or.inr hc)
              · exact Or.inl (Or.inl hec.symm)
              · exact Or.inr ⟨e, he, hec⟩
          · intro e he
            rcases List.mem_cons.mp he with rfl | he
            · exact ⟨hp.1, hp.2, d, List.mem_cons_self d ds, hd, rfl, rfl⟩
            · obtain ⟨he1, he2, d', hd', hs', he3, he4⟩ := h3 e he
              refine ⟨he1, fun hmem => he2 (Finset.mem_insert_of_mem hmem),
                d', List.mem_cons_of_mem d hd', hs', he3, he4⟩
          · intro d' hd' hskip hw
            rcases List.mem_cons.mp hd' with rfl | hd'
            · simp only [bfsScan, hacc]
              exact (h2 _).mpr (Or.inl (Finset.mem_insert_self _ _))
            · simp only [bfsScan, hacc]
              exact h4 d' hd' hskip hw
        · have hacc : (if skip d = true then acc else bfsPush acc (nf d) (ff d)) = acc := by
            simp [hd, bfsPush, hp]
          obtain ⟨new, h1, h2, h3, h4⟩ := ih acc
          refine ⟨new, ?_, ?_, ?_, ?_⟩
          · simpa [bfsScan, hacc] using h1
          · intro c; simpa [bfsScan, hacc] using h2 c
          · intro e he
            obtain ⟨he1, he2, d', hd', he3⟩ := h3 e he
            exact ⟨he1, he2, d', List.mem_cons_of_mem d hd', he3⟩
          · intro d' hd' hskip hw
            rcases List.mem_cons.mp hd' with rfl | hd'
            · have hin : nf d' ∈ acc.1 := by
                by_contra hnot
                exact hp ⟨hw, hnot⟩
              simp only [bfsScan, hacc]
              exact (h2 (nf d')).mpr (Or.inl hin)
            · simp only [bfsScan, hacc]
              exact h4 d' hd' hskip hw

theorem bfsLoop_nil (t : GridPosition) (V : Finset GridPosition) :
    bfsLoop t V [] = none := by
  rw [bfsLoop]

theorem bfsLoop_found {t : GridPosition} {V : Finset GridPosition}
    {e : BfsEntry} {rest : List BfsEntry} (h : e.cell = t) :
    bfsLoop t V (e :: rest) = some e.first := by
  rw [bfsLoop]
  simp [h]

theorem bfsLoop_step {t : GridPosition} {V : Finset GridPosition}
    {e : BfsEntry} {rest : List BfsEntry} (h : ¬ e.cell = t) :
    bfsLoop t V (e :: rest) =
      bfsLoop t (bfsExpand V e).1 (rest ++ (bfsExpand V e).2) := by
  rw [bfsLoop]
  simp [h]

/-- The scan structure lemma specialised to the while-loop expansion. -/
theorem bfsExpand_spec (V : Finset GridPosition) (e : BfsEntry) :
    ∃ new : List BfsEntry,
      (bfsExpand V e).2 = new ∧
      (∀ c, c ∈ (bfsExpand V e).1 ↔ c ∈ V ∨ ∃ x ∈ new, x.cell = c) ∧
      (∀ x ∈ new, isWalkable x.cell = true ∧ x.cell ∉ V ∧ x.first = e.first ∧
        ∃ d, x.cell = addDirection e.cell d) ∧
      (∀ d, isWalkable (addDirection e.cell d) = true →
        addDirection e.cell d ∈ (bfsExpand V e).1) := by
  obtain ⟨new, h1, h2, h3, h4⟩ :=
    bfsScan_spec (fun _ => false) (addDirection e.cell) (fun _ => e.first)
      DIRECTIONS (V, [])
  refine ⟨new, by simpa [bfsExpand] using h1, h2, ?_, ?_⟩
  · intro x hx
    obtain ⟨hw, hnv, d, _, _, hc, hf⟩ := h3 x hx
    exact ⟨hw, hnv, hf, d, hc⟩
  · intro d hw
    exact h4 d (mem_DIRECTIONS d) rfl hw

/-- The scan structure lemma specialised to the initial scan. -/
theorem bfsInit_spec (a : GridPosition) (f : Option Direction) :
    ∃ new : List BfsEntry,
      (bfsInit a f).2 = new ∧
      (∀ c, c ∈ (bfsInit a f).1 ↔ c = a ∨ ∃ x ∈ new, x.cell = c) ∧
      (∀ x ∈ new, isWalkable x.cell = true ∧ x.cell ≠ a ∧ f ≠ some x.first ∧
        x.cell = addDirection a x.first) ∧
      (∀ d, f ≠ some d → isWalkable (addDirection a d) = true →
        addDirection a d ∈ (bfsInit a f).1) := by
  obtain ⟨new, h1, h2, h3, h4⟩ :=
    bfsScan_spec (fun d => decide (f = some d)) (addDirection a) (fun d => d)
      DIRECTIONS ({a}, [])
  refine ⟨new, by simpa [bfsInit] using h1, ?_, ?_, ?_⟩
  · intro c
    simpa [bfsInit, Finset.mem_singleton] using h2 c
  · intro x hx
    obtain ⟨hw, hnv, d, _, hs, hc, hf⟩ := h3 x hx
    rw [Finset.mem_singleton] at hnv
    refine ⟨hw, hnv, ?_, by rw [hf]; exact hc⟩
    intro hcontra
    rw [← hf] at hs
    rw [hcontra] at hs
    simp at hs
  · intro d hd hw
    exact h4 d (mem_DIRECTIONS d) (by simp [hd]) hw

theorem bfsLoop_sound {f : Option Direction} {a b : GridPosition}
    (V : Finset GridPosition) (q : List BfsEntry) :
    (∀ e ∈ q, reachOKEntry f a e) →
    ∀ d, bfsLoop b V q = some d →
      f ≠ some d ∧ isWalkable (addDirection a d) = true ∧
        ∃ n, distLeB n (addDirection a d) b = true := by
  induction V, q using bfsLoop.induct b with
  | case1 V =>
      intro _ d hres
      rw [bfsLoop_nil] at hres
      cases hres
  | case2 V e rest heq =>
      intro hinv d hres
      rw [bfsLoop_found heq] at hres
      obtain ⟨hf, hw, n, hd⟩ := hinv e (List.mem_cons_self e rest)
      cases hres
      exact ⟨hf, hw, n, heq ▸ hd⟩
  | case3 V e rest hne ih =>
      intro hinv d hres
      rw [bfsLoop_step hne] at hres
      refine ih ?_ d hres
      intro x hx
      rcases List.mem_append.mp hx with hx | hx
      · exact hinv x (List.mem_cons_of_mem e hx)
      · obtain ⟨new, hnew, _, h3, _⟩ := bfsExpand_spec V e
        rw [hnew] at hx
        obtain ⟨hwx, _, hfx, d', hcx⟩ := h3 x hx
        obtain ⟨hf, hw, n, hd⟩ := hinv e (List.mem_cons_self e rest)
        refine ⟨hfx ▸ hf, hfx ▸ hw, n + 1, ?_⟩
        rw [hfx, hcx]
        exact distLeB_append d' hd (hcx ▸ hwx)

theorem bfsInv_init (a b : GridPosition) (hba : b ≠ a) :
    bfsInv a b (bfsInit a none).1 (bfsInit a none).2 := by
  obtain ⟨new, h1, h2, h3, h4⟩ := bfsInit_spec a none
  refine ⟨∅, 1, new, [], by rw [h1, List.append_nil], ?_, by simp, ?_, ?_, by simp,
    ?_, by simp, hba⟩
  · intro e he
    obtain ⟨hw, hnv, _, hc⟩ := h3 e he
    refine ⟨hw, by rw [← hc]; exact hw, ?_, ?_, le_refl 1⟩
    · exact distLeB_zero.mpr hc.symm
    · intro k hk
      have hk0 : k = 0 := by omega
      subst hk0
      simp only [distLeB, decide_eq_false_iff_not]
      exact fun hcontra => hnv hcontra.symm
  · intro c hw hd
    rcases distLeB_succ_iff.mp hd with hd | ⟨d, hwd, hd0⟩
    · exact (h2 c).mpr (Or.inl hd.symm)
    · rw [distLeB_zero] at hd0
      exact hd0 ▸ h4 d (by simp) hwd
  · intro c
    rw [h2 c]
    simp
  · intro d hw
    exact h4 d (by simp) hw

/-- When the level-`m` prefix of the queue is exhausted, the covering
invariant upgrades from level `m` to level `m + 1`. -/
theorem bfsInv_covering_up {a : GridPosition} {V P : Finset GridPosition}
    {m : Nat} {q2 : List BfsEntry}
    (hq2 : ∀ e ∈ q2, entOK a (m + 1) e)
    (hcov : ∀ c, isWalkable c = true → distLeB m a c = true → c ∈ V)
    (hV : ∀ c, c ∈ V → c = a ∨ c ∈ P ∨ (∃ e ∈ q2, e.cell = c))
    (hP : ∀ y ∈ P, ∀ d, isWalkable (addDirection y d) = true → addDirection y d ∈ V)
    (hA : ∀ d, isWalkable (addDirection a d) = true → addDirection a d ∈ V) :
    ∀ c, isWalkable c = true → distLeB (m + 1) a c = true → c ∈ V := by
  intro c hw h
  rcases distLeB_snoc h with h | ⟨y, d, hy, hdist, hcd, hwc⟩
  · exact hcov c hw h
  · subst hcd
    rcases hy with hy | hy
    · have hyV : y ∈ V := hcov y hy hdist
      rcases hV y hyV with rfl | hyP | ⟨e, he, hec⟩
      · exact hA d hwc
      · exact hP y hyP d hwc
      · obtain ⟨_, _, _, hlow, _⟩ := hq2 e he
        rw [hec] at hlow
        rw [hlow m (by omega)] at hdist
        cases hdist
    · subst hy
      exact hA d hwc

/-- Normalised head form of the invariant: when the queue is nonempty, its
head can be taken to lie at the current level (re-slicing levels if the
level-`m` prefix is empty). -/
theorem bfsInv_cons {a b : GridPosition} {V : Finset GridPosition}
    {e : BfsEntry} {rest : List BfsEntry} (h : bfsInv a b V (e :: rest)) :
    ∃ P : Finset GridPosition, ∃ m : Nat, ∃ q1 q2 : List BfsEntry,
      rest = q1 ++ q2 ∧ entOK a m e ∧
      (∀ x ∈ q1, entOK a m x) ∧
      (∀ x ∈ q2, entOK a (m + 1) x) ∧
      (∀ c, isWalkable c = true → distLeB m a c = true → c ∈ V) ∧
      (∀ c, c ∈ V ↔ c = a ∨ c ∈ P ∨ e.cell = c ∨ (∃ x ∈ q1, x.cell = c) ∨
        (∃ x ∈ q2, x.cell = c)) ∧
      (∀ y ∈ P, ∀ d, isWalkable (addDirection y d) = true → addDirection y d ∈ V) ∧
      (∀ d, isWalkable (addDirection a d) = true → addDirection a d ∈ V) ∧
      b ∉ P ∧ b ≠ a := by
  obtain ⟨P, m, q1, q2, hq, hq1, hq2, hcov, hV, hP, hA, hbP, hba⟩ := h
  cases q1 with
  | cons l q1tail =>
      rw [List.cons_append] at hq
      injection hq with hl hrest
      subst hl
      refine ⟨P, m, q1tail, q2, hrest, hq1 e (List.mem_cons_self e q1tail), ?_, hq2,
        hcov, ?_, hP, hA, hbP, hba⟩
      · intro x hx
        exact hq1 x (List.mem_cons_of_mem e hx)
      · intro c
        rw [hV c]
        simp only [List.mem_cons]
        constructor
        · rintro (h | h | ⟨x, (rfl | hx), hc⟩ | h)
          · exact Or.inl h
          · exact Or.inr (Or.inl h)
          · exact Or.inr (Or.inr (Or.inl hc))
          · exact Or.inr (Or.inr (Or.inr (Or.inl ⟨x, hx, hc⟩)))
          · exact Or.inr (Or.inr (Or.inr (Or.inr h)))
        · rintro (h | h | h | ⟨x, hx, hc⟩ | h)
          · exact Or.inl h
          · exact Or.inr (Or.inl h)
          · exact Or.inr (Or.inr (Or.inl ⟨e, Or.inl rfl, h⟩))
          · exact Or.inr (Or.inr (Or.inl ⟨x, Or.inr hx, hc⟩))
          · exact Or.inr (Or.inr (Or.inr h))
  | nil =>
      rw [List.nil_append] at hq
      subst hq
      have hV' : ∀ c, c ∈ V → c = a ∨ c ∈ P ∨ (∃ x ∈ e :: rest, x.cell = c) := by
        intro c hc
        rcases (hV c).mp hc with h | h | ⟨x, hx, _⟩ | h
        · exact Or.inl h
        · exact Or.inr (Or.inl h)
        · cases hx
        · exact Or.inr (Or.inr h)
      have hcov' := bfsInv_covering_up hq2 hcov hV' hP hA
      refine ⟨P, m + 1, rest, [], by rw [List.append_nil],
        hq2 e (List.mem_cons_self e rest), ?_, by simp, hcov', ?_, hP, hA, hbP, hba⟩
      · intro x hx
        exact hq2 x (List.mem_cons_of_mem e hx)
      · intro c
        rw [hV c]
        simp only [List.mem_cons, List.not_mem_nil]
        constructor
        · rintro (h | h | ⟨x, hx, hc⟩ | ⟨x, (rfl | hx), hc⟩)
          · exact Or.inl h
          · exact Or.inr (Or.inl h)
          · cases hx
          · exact Or.inr (Or.inr (Or.inl hc))
          · exact Or.inr (Or.inr (Or.inr (Or.inl ⟨x, hx, hc⟩)))
        · rintro (h | h | h | ⟨x, hx, hc⟩ | ⟨x, hx, _⟩)
          · exact Or.inl h
          · exact Or.inr (Or.inl h)
          · exact Or.inr (Or.inr (Or.inr ⟨e, Or.inl rfl, h⟩))
          · exact Or.inr (Or.inr (Or.inr ⟨x, Or.inr hx, hc⟩))
          · cases hx

theorem bfsInv_step {a b : GridPosition} {V : Finset GridPosition}
    {e : BfsEntry} {rest : List BfsEntry} (h : bfsInv a b V (e :: rest))
    (hne : e.cell ≠ b) :
    bfsInv a b (bfsExpand V e).1 (rest ++ (bfsExpand V e).2) := by
  obtain ⟨P, m, q1, q2, hrest, hent, hq1, hq2, hcov, hV, hP, hA, hbP, hba⟩ :=
    bfsInv_cons h
  obtain ⟨new, hnew, hmem, hprops, hcover⟩ := bfsExpand_spec V e
  obtain ⟨hewalk, hefirst, hedist, helow, hm⟩ := hent
  have hVsub : ∀ c, c ∈ V → c ∈ (bfsExpand V e).1 := by
    intro c hc
    exact (hmem c).mpr (Or.inl hc)
  refine ⟨insert e.cell P, m, q1, q2 ++ new, ?_, hq1, ?_, ?_, ?_, ?_, ?_, ?_, hba⟩
  · rw [hrest, hnew, List.append_assoc]
  · intro x hx
    rcases List.mem_append.mp hx with hx | hx
    · exact hq2 x hx
    · obtain ⟨hwx, hnvx, hfx, d, hcx⟩ := hprops x hx
      refine ⟨hwx, by rw [hfx]; exact hefirst, ?_, ?_, by omega⟩
      · rw [hfx, hcx]
        have := distLeB_append d hedist (hcx ▸ hwx)
        rwa [Nat.sub_add_cancel hm] at this
      · intro k hk
        by_contra hcontra
        rw [Bool.not_eq_false] at hcontra
        have : distLeB m a x.cell = true := distLeB_mono (by omega) hcontra
        exact hnvx (hcov x.cell hwx this)
  · intro c hw hd
    exact hVsub c (hcov c hw hd)
  · intro c
    rw [hmem c, hV c]
    simp only [Finset.mem_insert, List.mem_append]
    constructor
    · rintro ((h | h | h | ⟨x, hx, hc⟩ | ⟨x, hx, hc⟩) | ⟨x, hx, hc⟩)
      · exact Or.inl h
      · exact Or.inr (Or.inl (Or.inr h))
      · exact Or.inr (Or.inl (Or.inl h.symm))
      · exact Or.inr (Or.inr (Or.inl ⟨x, hx, hc⟩))
      · exact Or.inr (Or.inr (Or.inr ⟨x, Or.inl hx, hc⟩))
      · exact Or.inr (Or.inr (Or.inr ⟨x, Or.inr hx, hc⟩))
    · rintro (h | (h | h) | ⟨x, hx, hc⟩ | ⟨x, (hx | hx), hc⟩)
      · exact Or.inl (Or.inl h)
      · exact Or.inl (Or.inr (Or.inr (Or.inl h.symm)))
      · exact Or.inl (Or.inr (Or.inl h))
      · exact Or.inl (Or.inr (Or.inr (Or.inr (Or.inl ⟨x, hx, hc⟩))))
      · exact Or.inl (Or.inr (Or.inr (Or.inr (Or.inr ⟨x, hx, hc⟩))))
      · exact Or.inr ⟨x, hx, hc⟩
  · intro y hy d hw
    rcases Finset.mem_insert.mp hy with rfl | hy
    · exact hcover d hw
    · exact hVsub _ (hP y hy d hw)
  · intro d hw
    exact hVsub _ (hA d hw)
  · intro hcontra
    rcases Finset.mem_insert.mp hcontra with h | h
    · exact hne h.symm
    · exact hbP h

theorem bfsLoop_complete {a b : GridPosition} (hb : isWalkable b = true)
    (V : Finset GridPosition) (q : List BfsEntry) :
    bfsInv a b V q → (∃ n, distLeB n a b = true) →
    ∃ d m, bfsLoop b V q = some d ∧ isWalkable (addDirection a d) = true ∧
      1 ≤ m ∧ distLeB (m - 1) (addDirection a d) b = true ∧
      ∀ k, k < m → distLeB k a b = false := by
  induction V, q using bfsLoop.induct b with
  | case1 V =>
      intro hinv hreach
      exfalso
      obtain ⟨P, m, q1, q2, hq, _, _, _, hV, hP, hA, hbP, hba⟩ := hinv
      obtain ⟨hq1, hq2⟩ := List.append_eq_nil.mp hq.symm
      subst hq1; subst hq2
      have haV : a ∈ V := (hV a).mpr (Or.inl rfl)
      have hclosed : ∀ y ∈ V, ∀ d, isWalkable (addDirection y d) = true →
          addDirection y d ∈ V := by
        intro y hy d hw
        rcases (hV y).mp hy with rfl | hy | ⟨x, hx, _⟩ | ⟨x, hx, _⟩
        · exact hA d hw
        · exact hP y hy d hw
        · cases hx
        · cases hx
      obtain ⟨n, hn⟩ := hreach
      have hbV := reach_mem_closed haV hclosed n b (Or.inl hb) hn
      rcases (hV b).mp hbV with h | h | ⟨x, hx, _⟩ | ⟨x, hx, _⟩
      · exact hba h
      · exact hbP h
      · cases hx
      · cases hx
  | case2 V e rest heq =>
      intro hinv _
      obtain ⟨P, m, q1, q2, _, hent, _⟩ := bfsInv_cons hinv
      obtain ⟨_, hefirst, hedist, helow, hm⟩ := hent
      exact ⟨e.first, m, bfsLoop_found heq, hefirst, hm, heq ▸ hedist,
        fun k hk => heq ▸ helow k hk⟩
  | case3 V e rest hne ih =>
      intro hinv hreach
      rw [bfsLoop_step hne]
      exact ih (bfsInv_step hinv hne) hreach

/-- Claim C1: for every pair of walkable cells a and b, if b is reachable
from a and a ≠ b then findDirectionBFS a b returns a direction whose target
cell is walkable and whose BFS distance to b is strictly less than a's (the
direction lies on a shortest walkable path); and findDirectionBFS returns
none whenever start equals goal, start or goal is not walkable, or goal is
unreachable from start respecting the optional forbidden first direction. -/
theorem claim_C1_findDirectionBFS (a b : GridPosition) :
    (∀ f, a = b → findDirectionBFS a b f = none) ∧
    (∀ f, ¬ (isWalkable a = true ∧ isWalkable b = true) →
      findDirectionBFS a b f = none) ∧
    (∀ f, (∀ n, firstReach f a n b = false) → findDirectionBFS a b f = none) ∧
    (isWalkable a = true → isWalkable b = true → a ≠ b →
      ∀ h : ∃ n, distLeB n a b = true,
        ∃ d, findDirectionBFS a b none = some d ∧
          isWalkable (addDirection a d) = true ∧
          ∃ h2 : ∃ n, distLeB n (addDirection a d) b = true,
            Nat.find h2 < Nat.find h) := by
  refine ⟨?_, ?_, ?_, ?_⟩
  · intro f heq
    by_cases hw : ¬ (isWalkable a = true) ∨ ¬ (isWalkable b = true)
    · unfold findDirectionBFS
      rw [if_pos hw]
    · unfold findDirectionBFS
      rw [if_neg hw, if_pos heq]
  · intro f hw
    have hw' : ¬ (isWalkable a = true) ∨ ¬ (isWalkable b = true) := by tauto
    unfold findDirectionBFS
    rw [if_pos hw']
  · intro f hfr
    by_cases hw : ¬ (isWalkable a = true) ∨ ¬ (isWalkable b = true)
    · unfold findDirectionBFS
      rw [if_pos hw]
    · by_cases heq : a = b
      · unfold findDirectionBFS
        rw [if_neg hw, if_pos heq]
      · unfold findDirectionBFS
        rw [if_neg hw, if_neg heq]
        have hinv : ∀ e ∈ (bfsInit a f).2, reachOKEntry f a e := by
          intro e he
          obtain ⟨new, h1, _, h3, _⟩ := bfsInit_spec a f
          rw [h1] at he
          obtain ⟨hwx, _, hf, hc⟩ := h3 e he
          exact ⟨hf, by rw [← hc]; exact hwx, 0, distLeB_zero.mpr hc.symm⟩
        cases hres : bfsLoop b (bfsInit a f).1 (bfsInit a f).2 with
        | none => rfl
        | some d =>
            exfalso
            obtain ⟨hfd, hwd, n, hd⟩ := bfsLoop_sound _ _ hinv d hres
            have hr : firstReach f a (n + 1) b = true := by
              simp only [firstReach, Bool.or_eq_true, List.any_eq_true,
                Bool.and_eq_true]
              refine Or.inr ⟨d, mem_DIRECTIONS d, ⟨?_, hwd⟩, hd⟩
              simp [hfd]
            rw [hfr (n + 1)] at hr
            cases hr
  · intro hwa hwb hab h
    have hw' : ¬ (¬ (isWalkable a = true) ∨ ¬ (isWalkable b = true)) := by
      simp [hwa, hwb]
    unfold findDirectionBFS
    rw [if_neg hw', if_neg hab]
    obtain ⟨d, m, hres, hwd, hm, hdist, hlow⟩ :=
      bfsLoop_complete hwb _ _
        (bfsInv_init a b (fun hcontra => hab hcontra.symm)) h
    refine ⟨d, hres, hwd, ⟨m - 1, hdist⟩, ?_⟩
    have h1 : m ≤ Nat.find h := by
      by_contra hcon
      push_neg at hcon
      have hfalse := hlow (Nat.find h) hcon
      rw [Nat.find_spec h] at hfalse
      cases hfalse
    have h2 : Nat.find (⟨m - 1, hdist⟩ :
        ∃ n, distLeB n (addDirection a d) b = true) ≤ m - 1 :=
      Nat.find_le hdist
    omega

/-- Witness for C1 at the concrete walkable neighbours (1,1) and (1,2). -/
theorem claim_C1_findDirectionBFS_witness :
    isWalkable ⟨1, 1⟩ = true ∧ isWalkable ⟨1, 2⟩ = true ∧
      (∃ d, findDirectionBFS ⟨1, 1⟩ ⟨1, 2⟩ none = some d ∧
        isWalkable (addDirection ⟨1, 1⟩ d) = true) := by
  refine ⟨by decide, by decide, ?_⟩
  obtain ⟨d, hres, hwd, -⟩ :=
    (claim_C1_findDirectionBFS ⟨1, 1⟩ ⟨1, 2⟩).2.2.2 (by decide) (by decide)
      (by decide) ⟨1, by decide⟩
  exact ⟨d, hres, hwd⟩

theorem lookupPellet_filter_none (ps : List (GridPosition × PelletKind))
    (cell : GridPosition) :
    lookupPellet (ps.filter (fun p => ! decide (p.1 = cell))) cell = none := by
  induction ps with
  | nil => rfl
  | cons p ps ih =>
      by_cases hp : p.1 = cell
      · simpa [List.filter_cons, hp] using ih
      · simpa [List.filter_cons, hp, lookupPellet] using ih

theorem filter_length_of_lookup (ps : List (GridPosition × PelletKind))
    (cell : GridPosition) (k : PelletKind)
    (hnd : (ps.map Prod.fst).Nodup)
    (hk : lookupPellet ps cell = some k) :
    (ps.filter (fun p => ! decide (p.1 = cell))).length + 1 = ps.length := by
  induction ps with
  | nil => cases hk
  | cons p ps ih =>
      rw [List.map_cons, List.nodup_cons] at hnd
      by_cases hp : p.1 = cell
      · have hnone : ∀ q ∈ ps, ¬ q.1 = cell := by
          intro q hq hqc
          exact hnd.1 (by rw [hp, ← hqc]; exact List.mem_map_of_mem Prod.fst hq)
        have hfull : ps.filter (fun p => ! decide (p.1 = cell)) = ps := by
          apply List.filter_eq_self.mpr
          intro q hq
          simpa using hnone q hq
        simp [List.filter_cons, hp, hfull]
      · rw [lookupPellet, if_neg hp] at hk
        have hrec := ih hnd.2 hk
        have hstep : (p :: ps).filter (fun q => ! decide (q.1 = cell)) =
            p :: ps.filter (fun q => ! decide (q.1 = cell)) := by
          simp [List.filter_cons, hp]
        rw [hstep, List.length_cons, List.length_cons]
        omega

/-- Claim C7: consuming an uncollected pellet or power item removes it and
returns its kind; every later call at the same cell returns none and leaves
the overlay unchanged; the remaining item count decreases by exactly one on
the first call and by zero on later calls. -/
theorem claim_C7_consumePelletAt (m : MazeItems) (cell : GridPosition)
    (k : PelletKind)
    (hnd : (m.pellets.map Prod.fst).Nodup)
    (hin : isInside cell = true)
    (hk : lookupPellet m.pellets cell = some k) :
    (∃ m2, consumePelletAt m cell = (some k, m2) ∧
      m2.pellets.length + 1 = m.pellets.length ∧
      consumePelletAt m2 cell = (none, m2)) ∧
    (∀ m3 : MazeItems, lookupPellet m3.pellets cell = none →
      consumePelletAt m3 cell = (none, m3)) := by
  have hni : ¬ ¬ isInside cell = true := by simp [hin]
  constructor
  · refine ⟨⟨if gridValue m.grid cell = 2 ∨ gridValue m.grid cell = 3 then
        setGridCell m.grid cell 0 else m.grid,
      m.pellets.filter (fun p => ! decide (p.1 = cell))⟩, ?_, ?_, ?_⟩
    · simp only [consumePelletAt, if_neg hni, hk]
    · exact filter_length_of_lookup m.pellets cell k hnd hk
    · simp only [consumePelletAt, if_neg hni, lookupPellet_filter_none]
  · intro m3 h3
    unfold consumePelletAt
    by_cases hi : ¬ isInside cell = true
    · rw [if_pos hi]
    · rw [if_neg hi, h3]

/-- Witness for C7: a two-pellet overlay with a power item at (1,1). -/
theorem claim_C7_consumePelletAt_witness :
    isInside ⟨1, 1⟩ = true ∧
    ∃ m2, consumePelletAt
        ⟨baseGrid, [(⟨1, 1⟩, PelletKind.power), (⟨1, 2⟩, PelletKind.pellet)]⟩
        ⟨1, 1⟩ = (some PelletKind.power, m2) ∧
      m2.pellets.length + 1 = 2 ∧ consumePelletAt m2 ⟨1, 1⟩ = (none, m2) := by
  refine ⟨by decide, ?_⟩
  obtain ⟨⟨m2, h1, h2, h3⟩, -⟩ :=
    claim_C7_consumePelletAt
      ⟨baseGrid, [(⟨1, 1⟩, PelletKind.power), (⟨1, 2⟩, PelletKind.pellet)]⟩
      ⟨1, 1⟩ PelletKind.power (by decide) (by decide) (by decide)
  exact ⟨m2, h1, h2.trans (by decide), h3⟩

/-- Claim C10: every cell-indexed maze query is total for arbitrary integer
coordinates; for out-of-range cells isInside is false, isWall is true,
isWalkable is false, getCellValue is the wall value 1, and consumePelletAt
returns none leaving the overlay (and so the remaining item count)
unchanged. -/
theorem claim_C10_out_of_range (cell : GridPosition) (m : MazeItems)
    (h : isInside cell = false) :
    isWall cell = true ∧ isWalkable cell = false ∧ getCellValue m cell = 1 ∧
      consumePelletAt m cell = (none, m) ∧
      getRemainingPellets (consumePelletAt m cell).2 = getRemainingPellets m := by
  refine ⟨?_, ?_, ?_, ?_, ?_⟩
  · simp [isWall, h]
  · simp [isWalkable, h]
  · simp [getCellValue, h]
  · simp [consumePelletAt, h]
  · simp [consumePelletAt, h]

/-- Witness for C10 at the out-of-range cell (-1, 5). -/
theorem claim_C10_out_of_range_witness :
    isInside ⟨-1, 5⟩ = false ∧
      (isWall ⟨-1, 5⟩ = true ∧ isWalkable ⟨-1, 5⟩ = false ∧
        getCellValue initialMazeItems ⟨-1, 5⟩ = 1 ∧
        consumePelletAt initialMazeItems ⟨-1, 5⟩ = (none, initialMazeItems) ∧
        getRemainingPellets (consumePelletAt initialMazeItems ⟨-1, 5⟩).2 =
          getRemainingPellets initialMazeItems) :=
  ⟨by decide, claim_C10_out_of_range ⟨-1, 5⟩ initialMazeItems (by decide)⟩

/-- Claim C6: boundary direction resolution prefers the buffered intent when
it leads to a walkable cell (clearing the buffer), else keeps the current
facing when still walkable, else yields none; a queued direction that is not
walkable is retained unconsumed, and queueDirection overwrites the buffer. -/
theorem claim_C6_resolveNextDirection (p : Player) :
    (∀ b, p.bufferedDirection = some b → canMove p.currentCell b = true →
      Player.resolveNextDirection p =
        (some b, { p with currentDirection := some b, bufferedDirection := none })) ∧
    (∀ b, p.bufferedDirection = some b → canMove p.currentCell b = false →
      (Player.resolveNextDirection p).2.bufferedDirection = some b) ∧
    (p.bufferedDirection = none ∨
        (∃ b, p.bufferedDirection = some b ∧ canMove p.currentCell b = false) →
      (∀ c, p.currentDirection = some c → canMove p.currentCell c = true →
        Player.resolveNextDirection p = (some c, p)) ∧
      (∀ c, p.currentDirection = some c → canMove p.currentCell c = false →
        Player.resolveNextDirection p = (none, { p with currentDirection := none })) ∧
      (p.currentDirection = none → Player.resolveNextDirection p = (none, p))) ∧
    (∀ d, (Player.queueDirection d p).bufferedDirection = some d) := by
  refine ⟨?_, ?_, ?_, fun d => rfl⟩
  · intro b hb hc
    simp [Player.resolveNextDirection, hb, hc]
  · intro b hb hc
    rcases hcur : p.currentDirection with - | c
    · simp [Player.resolveNextDirection, hb, hc, hcur]
    · by_cases hcc : canMove p.currentCell c = true
      · simp [Player.resolveNextDirection, hb, hc, hcur, hcc]
      · simp [Player.resolveNextDirection, hb, hc, hcur, hcc]
  · intro hcase
    have hb1 : (match p.bufferedDirection with
        | some bd =>
            if canMove p.currentCell bd = true then
              { p with currentDirection := some bd, bufferedDirection := none }
            else p
        | none => p) = p := by
      rcases hcase with hnone | ⟨b, hb, hc⟩
      · simp only [hnone]
      · simp only [hb, hc]
        simp
    refine ⟨?_, ?_, ?_⟩
    · intro c hc hcc
      simp only [Player.resolveNextDirection, hb1, hc, hcc]
      simp [hc]
    · intro c hc hcc
      simp only [Player.resolveNextDirection, hb1, hc, hcc]
      simp
    · intro hc
      simp only [Player.resolveNextDirection, hb1, hc]

/-- Witness for C6: from (1,1) a queued up move hits a wall and is retained,
while the current facing down remains walkable and is kept. -/
theorem claim_C6_resolveNextDirection_witness :
    ((⟨⟨1, 1⟩, ⟨1, 1⟩, none, some .down, some .up, 0⟩ :
        Player).bufferedDirection = some .up ∧
      canMove ⟨1, 1⟩ Direction.up = false ∧
      canMove ⟨1, 1⟩ Direction.down = true) ∧
    (Player.resolveNextDirection ⟨⟨1, 1⟩, ⟨1, 1⟩, none, some .down, some .up, 0⟩).2.bufferedDirection =
        some .up ∧
    Player.resolveNextDirection ⟨⟨1, 1⟩, ⟨1, 1⟩, none, some .down, some .up, 0⟩ =
      (some .down, ⟨⟨1, 1⟩, ⟨1, 1⟩, none, some .down, some .up, 0⟩) := by
  refine ⟨⟨rfl, by decide, by decide⟩, ?_, ?_⟩
  · exact (claim_C6_resolveNextDirection _).2.1 .up rfl (by decide)
  · exact ((claim_C6_resolveNextDirection _).2.2.1
      (Or.inr ⟨.up, rfl, by decide⟩)).1 .down rfl (by decide)

theorem GhostMode.toState_ne_respawn (m : GhostMode) : m.toState ≠ .respawn := by
  cases m <;> simp [GhostMode.toState]

theorem GhostMode.toState_ne_frightened (m : GhostMode) : m.toState ≠ .frightened := by
  cases m <;> simp [GhostMode.toState]

theorem Ghost.finishStep_ctrl (g : Ghost) :
    (Ghost.finishStep g).frightenedTimer = g.frightenedTimer ∧
    (Ghost.finishStep g).desiredMode = g.desiredMode ∧
    (Ghost.finishStep g).respawnDelay = g.respawnDelay ∧
    (Ghost.finishStep g).state = g.state := by
  unfold Ghost.finishStep
  rcases hto : g.toCell with - | t <;> simp

theorem ghostCtrlRel_refl (g : Ghost) : ghostCtrlRel g g :=
  ⟨rfl, rfl, rfl, Or.inl rfl⟩

theorem ghostCtrlRel_comp {g h k : Ghost} (h1 : ghostCtrlRel g h)
    (h2 : ghostCtrlRel h k) : ghostCtrlRel g k := by
  obtain ⟨t1, d1, r1, s1⟩ := h1
  obtain ⟨t2, d2, r2, s2⟩ := h2
  refine ⟨t2.trans t1, d2.trans d1, r2.trans r1, ?_⟩
  rcases s1 with s1 | ⟨s1, s1b⟩
  · rcases s2 with s2 | ⟨s2, s2b⟩
    · exact Or.inl (s2.trans s1)
    · rw [s1] at s2b
      exact Or.inr ⟨by rw [s2, d1], s2b⟩
  · rcases s2 with s2 | ⟨s2, s2b⟩
    · exact Or.inr ⟨s2.trans s1, s1b⟩
    · rw [s1] at s2b
      exact absurd s2b (GhostMode.toState_ne_respawn g.desiredMode)

theorem ghostCtrlRel_finishStep (g : Ghost) : ghostCtrlRel g (Ghost.finishStep g) := by
  obtain ⟨a, b, c, d⟩ := Ghost.finishStep_ctrl g
  exact ⟨a, b, c, Or.inl d⟩

/-- The movement loop never touches the frightened timer, the desired mode
or the respawn delay; the behaviour state is either preserved or, when the
ghost was in respawn, flipped to the desired mode. -/
theorem ghost_moveLoop_ctrl (fuel : Nat) :
    ∀ (rng : List Nat) (remaining : ℚ) (pc : GridPosition) (g : Ghost),
      ghostCtrlRel g (Ghost.moveLoop rng fuel remaining pc g) := by
  induction fuel with
  | zero => exact fun rng remaining pc g => ghostCtrlRel_refl g
  | succ n ih =>
      intro rng remaining pc g
      simp only [Ghost.moveLoop]
      by_cases hr : remaining ≤ 0
      · rw [if_pos hr]
        exact ghostCtrlRel_refl g
      · rw [if_neg hr]
        rcases hto : g.toCell with - | t
        · dsimp only
          by_cases hg1 : g.state = GhostState.respawn ∧ g.currentCell = g.homeCell
          · rw [if_pos hg1]
            split
            · exact ⟨rfl, rfl, rfl, Or.inr ⟨rfl, hg1.1⟩⟩
            · split
              · refine ghostCtrlRel_comp ?_ (ih _ _ _ _)
                exact ⟨rfl, rfl, rfl, Or.inr ⟨rfl, hg1.1⟩⟩
              · exact ⟨rfl, rfl, rfl, Or.inr ⟨rfl, hg1.1⟩⟩
          · rw [if_neg hg1]
            split
            · exact ghostCtrlRel_refl g
            · split
              · refine ghostCtrlRel_comp ?_ (ih _ _ _ _)
                exact ⟨rfl, rfl, rfl, Or.inl rfl⟩
              · exact ghostCtrlRel_refl g
        · dsimp only
          split
          · refine ghostCtrlRel_comp ?_ (ih _ _ _ _)
            exact ghostCtrlRel_finishStep g
          · exact ⟨rfl, rfl, rfl, Or.inl rfl⟩

theorem playerSpeed_pos : (0 : ℚ) < playerSpeed := by
  norm_num [playerSpeed]

theorem ghost_getSpeed_pos (g : Ghost) : (0 : ℚ) < g.getSpeed := by
  unfold Ghost.getSpeed
  rcases g.state <;>
    norm_num [ghostMoveSpeed, ghostFrightenedSpeed, ghostRespawnSpeed]

theorem player_resolve_motion (p : Player) :
    (Player.resolveNextDirection p).2.toCell = p.toCell ∧
    (Player.resolveNextDirection p).2.progressToNext = p.progressToNext := by
  rcases hb : p.bufferedDirection with - | bd
  · rcases hc : p.currentDirection with - | cd
    · simp [Player.resolveNextDirection, hb, hc]
    · by_cases hcc : canMove p.currentCell cd = true
      · simp [Player.resolveNextDirection, hb, hc, hcc]
      · simp [Player.resolveNextDirection, hb, hc, hcc]
  · by_cases hbb : canMove p.currentCell bd = true
    · simp [Player.resolveNextDirection, hb, hbb]
    · rcases hc : p.currentDirection with - | cd
      · simp [Player.resolveNextDirection, hb, hbb, hc]
      · by_cases hcc : canMove p.currentCell cd = true
        · simp [Player.resolveNextDirection, hb, hbb, hc, hcc]
        · simp [Player.resolveNextDirection, hb, hbb, hc, hcc]

theorem player_motion_partial (p : Player) (r : ℚ) (hr : 0 < r)
    (hs : r < (1 - p.progressToNext) / playerSpeed) (h0 : 0 ≤ p.progressToNext)
    (ht : ¬ p.toCell = none) :
    playerMotionInv { p with progressToNext := p.progressToNext + r * playerSpeed } := by
  have hmul := (lt_div_iff₀ playerSpeed_pos).mp hs
  have hpos : 0 < p.progressToNext + r * playerSpeed := by
    have := mul_pos hr playerSpeed_pos
    linarith
  refine ⟨?_, ?_, ?_⟩ <;> dsimp only
  · linarith
  · linarith
  · exact iff_of_false ht hpos.ne'

theorem ghost_motion_partial (g : Ghost) (r : ℚ) (hr : 0 < r)
    (hs : r < (1 - g.progressToNext) / g.getSpeed) (h0 : 0 ≤ g.progressToNext)
    (ht : ¬ g.toCell = none) :
    ghostMotionInv { g with progressToNext := g.progressToNext + r * g.getSpeed } := by
  have hsp := ghost_getSpeed_pos g
  have hmul := (lt_div_iff₀ hsp).mp hs
  have hpos : 0 < g.progressToNext + r * g.getSpeed := by
    have := mul_pos hr hsp
    linarith
  refine ⟨?_, ?_, ?_⟩ <;> dsimp only
  · linarith
  · linarith
  · exact iff_of_false ht hpos.ne'

theorem player_moveLoop_motion (fuel : Nat) :
    ∀ (remaining : ℚ) (p : Player), playerMotionInv p →
      playerMotionInv (Player.moveLoop fuel remaining p) := by
  induction fuel with
  | zero => exact fun remaining p h => h
  | succ n ih =>
      intro remaining p h
      simp only [Player.moveLoop]
      by_cases hr : remaining ≤ 0
      · rw [if_pos hr]
        exact h
      · rw [if_neg hr]
        push_neg at hr
        rcases hto : p.toCell with - | t
        · dsimp only
          split
          · obtain ⟨h1, h2⟩ := player_resolve_motion p
            exact ⟨by rw [h2]; exact h.1, by rw [h2]; exact h.2.1,
              by rw [h1, h2, hto]; simp [h.2.2.mp hto]⟩
          · rename_i d hch
            split_ifs with hs
            · refine ih _ _ ?_
              simp [playerMotionInv, Player.finishStep, Player.beginStep]
            · rw [not_le] at hs
              exact player_motion_partial _ _ hr hs (le_refl 0)
                (by simp [Player.beginStep])
        · dsimp only
          split_ifs with hs
          · refine ih _ _ ?_
            unfold Player.finishStep
            rw [hto]
            simp [playerMotionInv]
          · rw [not_le] at hs
            rw [← hto]
            exact player_motion_partial _ _ hr hs h.1 (by rw [hto]; simp)

theorem ghost_moveLoop_motion (fuel : Nat) :
    ∀ (rng : List Nat) (remaining : ℚ) (pc : GridPosition) (g : Ghost),
      ghostMotionInv g → ghostMotionInv (Ghost.moveLoop rng fuel remaining pc g) := by
  induction fuel with
  | zero => exact fun rng remaining pc g h => h
  | succ n ih =>
      intro rng remaining pc g h
      simp only [Ghost.moveLoop]
      by_cases hr : remaining ≤ 0
      · rw [if_pos hr]
        exact h
      · rw [if_neg hr]
        push_neg at hr
        rcases hto : g.toCell with - | t
        · dsimp only
          by_cases hg1 : g.state = GhostState.respawn ∧ g.currentCell = g.homeCell
          · rw [if_pos hg1]
            split
            · exact ⟨h.1, h.2.1, by simp [h.2.2.mp hto]⟩
            · rename_i d hch
              split_ifs with hs
              · refine ih _ _ _ _ ?_
                simp [ghostMotionInv, Ghost.finishStep, Ghost.beginStep]
              · rw [not_le] at hs
                exact ghost_motion_partial _ _ hr hs (le_refl 0)
                  (by simp [Ghost.beginStep])
          · rw [if_neg hg1]
            split
            · exact ⟨h.1, h.2.1, by simp [hto, h.2.2.mp hto]⟩
            · rename_i d hch
              split_ifs with hs
              · refine ih _ _ _ _ ?_
                simp [ghostMotionInv, Ghost.finishStep, Ghost.beginStep]
              · rw [not_le] at hs
                exact ghost_motion_partial _ _ hr hs (le_refl 0)
                  (by simp [Ghost.beginStep])
        · dsimp only
          split_ifs with hs
          · refine ih _ _ _ _ ?_
            unfold Ghost.finishStep
            rw [hto]
            simp [ghostMotionInv]
          · rw [not_le] at hs
            rw [← hto]
            exact ghost_motion_partial _ _ hr hs h.1 (by rw [hto]; simp)

theorem gridToWorldQ_inj {a b : GridPosition} {y : ℚ}
    (h : gridToWorldQ a y = gridToWorldQ b y) : a = b := by
  unfold gridToWorldQ at h
  rw [Prod.ext_iff, Prod.ext_iff] at h
  obtain ⟨h1, -, h3⟩ := h
  have hc : (a.col : ℚ) = (b.col : ℚ) := by dsimp only at h1; linarith
  have hrr : (a.row : ℚ) = (b.row : ℚ) := by dsimp only at h3; linarith
  have hc2 : a.col = b.col := by exact_mod_cast hc
  have hr2 : a.row = b.row := by exact_mod_cast hrr
  cases a; cases b
  simp only at hc2 hr2
  rw [hc2, hr2]

/-- Claim C9: onEaten on an adversary mid-transition discards the in-flight
step: afterwards the state is respawn, the recovery hold is 0.7 seconds, the
target cell is null, progress is 0, the direction is cleared and the settled
cell is unchanged, so the continuous position snaps back to the last settled
cell and, when the in-flight target cell differed from the settled cell, not
to the cell being entered. -/
theorem claim_C9_onEaten (g : Ghost) :
    (Ghost.onEaten g).state = .respawn ∧
    (Ghost.onEaten g).respawnDelay = 7 / 10 ∧
    (Ghost.onEaten g).toCell = none ∧
    (Ghost.onEaten g).progressToNext = 0 ∧
    (Ghost.onEaten g).currentDirection = none ∧
    (Ghost.onEaten g).currentCell = g.currentCell ∧
    (Ghost.onEaten g).worldPosition = gridToWorldQ g.currentCell ghostHeight ∧
    (∀ t, g.toCell = some t → t ≠ g.currentCell →
      (Ghost.onEaten g).worldPosition ≠ gridToWorldQ t ghostHeight) := by
  refine ⟨rfl, rfl, rfl, rfl, rfl, rfl, rfl, ?_⟩
  intro t _ hne hcontra
  have hcontra2 : gridToWorldQ g.currentCell ghostHeight =
      gridToWorldQ t ghostHeight := hcontra
  exact hne (gridToWorldQ_inj hcontra2).symm

/-- Witness for C9: a mid-step ghost is snapped back to its settled cell. -/
theorem claim_C9_onEaten_witness :
    ((⟨⟨10, 9⟩, ⟨10, 11⟩, ⟨1, 1⟩, ⟨1, 1⟩, ⟨1, 1⟩, some ⟨1, 2⟩, some .right, 1/2,
        .scatter, .scatter, 0, 0⟩ : Ghost).toCell = some ⟨1, 2⟩ ∧
      (⟨1, 2⟩ : GridPosition) ≠ ⟨1, 1⟩) ∧
    (Ghost.onEaten ⟨⟨10, 9⟩, ⟨10, 11⟩, ⟨1, 1⟩, ⟨1, 1⟩, ⟨1, 1⟩, some ⟨1, 2⟩,
        some .right, 1/2, .scatter, .scatter, 0, 0⟩).worldPosition =
      gridToWorldQ ⟨1, 1⟩ ghostHeight ∧
    (Ghost.onEaten ⟨⟨10, 9⟩, ⟨10, 11⟩, ⟨1, 1⟩, ⟨1, 1⟩, ⟨1, 1⟩, some ⟨1, 2⟩,
        some .right, 1/2, .scatter, .scatter, 0, 0⟩).worldPosition ≠
      gridToWorldQ ⟨1, 2⟩ ghostHeight := by
  refine ⟨⟨rfl, by decide⟩, (claim_C9_onEaten _).2.2.2.2.2.2.1, ?_⟩
  exact (claim_C9_onEaten _).2.2.2.2.2.2.2 ⟨1, 2⟩ rfl (by decide)

theorem ghost_update_invF (g : Ghost) (rng : List Nat) (fuel : Nat)
    (delta : ℚ) (pc : GridPosition)
    (hInv : g.state = .frightened → 0 < g.frightenedTimer) :
    (Ghost.update rng fuel delta pc g).state = .frightened →
      0 < (Ghost.update rng fuel delta pc g).frightenedTimer := by
  simp only [Ghost.update]
  by_cases hf : g.state = GhostState.frightened
  · rw [if_pos hf]
    by_cases ht : g.frightenedTimer - delta ≤ 0
    · rw [if_pos ht]
      rw [if_neg (fun hc => GhostMode.toState_ne_respawn g.desiredMode hc.1)]
      obtain ⟨-, -, -, cs⟩ := ghost_moveLoop_ctrl _ rng delta pc
        { g with
          frightenedTimer := g.frightenedTimer - delta,
          state := g.desiredMode.toState }
      intro hfin
      rcases cs with cs | ⟨-, cs2⟩
      · rw [hfin] at cs
        exact absurd cs.symm (GhostMode.toState_ne_frightened g.desiredMode)
      · exact absurd cs2 (GhostMode.toState_ne_respawn g.desiredMode)
    · rw [if_neg ht]
      have hB : ¬ (({ g with frightenedTimer := g.frightenedTimer - delta } :
          Ghost).state = GhostState.respawn ∧
          ({ g with frightenedTimer := g.frightenedTimer - delta } :
            Ghost).respawnDelay > 0) := by
        intro hc
        have : g.state = GhostState.respawn := hc.1
        rw [hf] at this
        cases this
      rw [if_neg hB]
      obtain ⟨ct, -, -, -⟩ := ghost_moveLoop_ctrl _ rng delta pc
        { g with frightenedTimer := g.frightenedTimer - delta }
      intro _
      rw [ct]
      dsimp only
      linarith [not_le.mp ht]
  · rw [if_neg hf]
    by_cases hd : g.state = GhostState.respawn ∧ g.respawnDelay > 0
    · rw [if_pos hd]
      intro hfin
      have : g.state = GhostState.frightened := hfin
      exact hInv this
    · rw [if_neg hd]
      obtain ⟨ct, -, -, cs⟩ := ghost_moveLoop_ctrl _ rng delta pc g
      intro hfin
      rw [ct]
      rcases cs with cs | ⟨cs, -⟩
      · rw [hfin] at cs
        exact hInv cs.symm
      · rw [hfin] at cs
        exact absurd cs.symm (GhostMode.toState_ne_frightened g.desiredMode)

theorem ghost_update_exact (g : Ghost) (rng : List Nat) (fuel : Nat)
    (delta : ℚ) (pc : GridPosition) (hf : g.state = .frightened) :
    (Ghost.update rng fuel delta pc g).frightenedTimer =
      g.frightenedTimer - delta ∧
    ((Ghost.update rng fuel delta pc g).state = .frightened ↔
      delta < g.frightenedTimer) := by
  simp only [Ghost.update]
  rw [if_pos hf]
  by_cases ht : g.frightenedTimer - delta ≤ 0
  · rw [if_pos ht]
    rw [if_neg (fun hc => GhostMode.toState_ne_respawn g.desiredMode hc.1)]
    obtain ⟨ct, -, -, cs⟩ := ghost_moveLoop_ctrl _ rng delta pc
      { g with
        frightenedTimer := g.frightenedTimer - delta,
        state := g.desiredMode.toState }
    constructor
    · rw [ct]
    · refine iff_of_false ?_ (not_lt.mpr (by linarith))
      intro hfin
      rcases cs with cs | ⟨-, cs2⟩
      · rw [hfin] at cs
        exact absurd cs.symm (GhostMode.toState_ne_frightened g.desiredMode)
      · exact absurd cs2 (GhostMode.toState_ne_respawn g.desiredMode)
  · rw [if_neg ht]
    have hB : ¬ (({ g with frightenedTimer := g.frightenedTimer - delta } :
        Ghost).state = GhostState.respawn ∧
        ({ g with frightenedTimer := g.frightenedTimer - delta } :
          Ghost).respawnDelay > 0) := by
      intro hc
      have : g.state = GhostState.respawn := hc.1
      rw [hf] at this
      cases this
    rw [if_neg hB]
    obtain ⟨ct, -, -, cs⟩ := ghost_moveLoop_ctrl _ rng delta pc
      { g with frightenedTimer := g.frightenedTimer - delta }
    constructor
    · rw [ct]
    · refine iff_of_true ?_ (by linarith [not_le.mp ht])
      rcases cs with cs | ⟨-, cs2⟩
      · rw [cs]
        exact hf
      · have : g.state = GhostState.respawn := cs2
        rw [hf] at this
        cases this

/-- Counterexample for C2 as stated: a frightened adversary mid-step with
0.01s of evasion left receives an update of 0.02s; the unclamped decrement
leaves the evasion timer at -0.01, a negative value. -/
theorem claim_C2_evasion_timer_counterexample :
    (Ghost.update [] 1 (1 / 50) ⟨7, 10⟩
      ⟨⟨10, 9⟩, ⟨10, 11⟩, ⟨1, 1⟩, ⟨1, 1⟩, ⟨1, 1⟩, some ⟨1, 2⟩, some .right,
        1 / 2, .scatter, .frightened, 1 / 100, 0⟩).frightenedTimer < 0 := by
  norm_num [Ghost.update, Ghost.moveLoop, Ghost.getSpeed, ghostMoveSpeed,
    Ghost.beginStep, Ghost.finishStep, GhostMode.toState]

/-- Claim C2 amended: the evasion timer field can retain a negative value on
the update that expires it (the unclamped decrement), but the adversary
leaves evasion exactly when the decremented timer reaches zero or below and
never earlier, and at every observable point evasion implies a strictly
positive remaining timer (preserved by update, setFrightened with a positive
duration, setMode, onEaten and reset). -/
theorem claim_C2_evasion_timer :
    (∀ (g : Ghost) (rng : List Nat) (fuel : Nat) (delta : ℚ) (pc : GridPosition),
      (g.state = .frightened → 0 < g.frightenedTimer) →
      ((Ghost.update rng fuel delta pc g).state = .frightened →
        0 < (Ghost.update rng fuel delta pc g).frightenedTimer)) ∧
    (∀ (g : Ghost) (dur : ℚ), 0 < dur →
      ((Ghost.setFrightened dur g).state = .frightened →
        0 < (Ghost.setFrightened dur g).frightenedTimer)) ∧
    (∀ (g : Ghost) (mode : GhostMode),
      (g.state = .frightened → 0 < g.frightenedTimer) →
      ((Ghost.setMode mode g).state = .frightened →
        0 < (Ghost.setMode mode g).frightenedTimer)) ∧
    (∀ g : Ghost, (Ghost.onEaten g).state = .frightened →
      0 < (Ghost.onEaten g).frightenedTimer) ∧
    (∀ (g : Ghost) (mode : GhostMode),
      (Ghost.reset mode g).state = .frightened →
        0 < (Ghost.reset mode g).frightenedTimer) ∧
    (∀ (g : Ghost) (rng : List Nat) (fuel : Nat) (delta : ℚ) (pc : GridPosition),
      g.state = .frightened →
      (Ghost.update rng fuel delta pc g).frightenedTimer =
        g.frightenedTimer - delta ∧
      ((Ghost.update rng fuel delta pc g).state = .frightened ↔
        delta < g.frightenedTimer)) := by
  refine ⟨fun g rng fuel delta pc h => ghost_update_invF g rng fuel delta pc h,
    ?_, ?_, ?_, ?_,
    fun g rng fuel delta pc hf => ghost_update_exact g rng fuel delta pc hf⟩
  · intro g dur hdur
    unfold Ghost.setFrightened
    split_ifs with hresp
    · intro hfin
      rw [hresp] at hfin
      cases hfin
    · intro _
      dsimp only
      exact lt_of_lt_of_le hdur (le_max_right g.frightenedTimer dur)
  · intro g mode hInv
    unfold Ghost.setMode
    split_ifs with hcs
    · intro hfin
      exact absurd hfin (GhostMode.toState_ne_frightened mode)
    · exact hInv
  · intro g hfin
    simp [Ghost.onEaten] at hfin
  · intro g mode hfin
    have : mode.toState = GhostState.frightened := hfin
    exact absurd this (GhostMode.toState_ne_frightened mode)

/-- Witness for the amended C2 at a concrete frightened mid-step ghost. -/
theorem claim_C2_evasion_timer_witness :
    ((⟨⟨10, 9⟩, ⟨10, 11⟩, ⟨1, 1⟩, ⟨1, 1⟩, ⟨1, 1⟩, some ⟨1, 2⟩, some .right,
        1 / 2, .scatter, .frightened, 1 / 100, 0⟩ : Ghost).state = .frightened ∧
      (0 : ℚ) < 8) ∧
    ((Ghost.setFrightened 8
        ⟨⟨10, 9⟩, ⟨10, 11⟩, ⟨1, 1⟩, ⟨1, 1⟩, ⟨1, 1⟩, some ⟨1, 2⟩, some .right,
          1 / 2, .scatter, .frightened, 1 / 100, 0⟩).state = .frightened →
      0 < (Ghost.setFrightened 8
        ⟨⟨10, 9⟩, ⟨10, 11⟩, ⟨1, 1⟩, ⟨1, 1⟩, ⟨1, 1⟩, some ⟨1, 2⟩, some .right,
          1 / 2, .scatter, .frightened, 1 / 100, 0⟩).frightenedTimer) ∧
    (Ghost.update [] 1 (1 / 50) ⟨7, 10⟩
        ⟨⟨10, 9⟩, ⟨10, 11⟩, ⟨1, 1⟩, ⟨1, 1⟩, ⟨1, 1⟩, some ⟨1, 2⟩, some .right,
          1 / 2, .scatter, .frightened, 1 / 100, 0⟩).frightenedTimer =
      1 / 100 - 1 / 50 ∧
    ((Ghost.update [] 1 (1 / 50) ⟨7, 10⟩
        ⟨⟨10, 9⟩, ⟨10, 11⟩, ⟨1, 1⟩, ⟨1, 1⟩, ⟨1, 1⟩, some ⟨1, 2⟩, some .right,
          1 / 2, .scatter, .frightened, 1 / 100, 0⟩).state = .frightened ↔
      (1 / 50 : ℚ) < 1 / 100) := by
  refine ⟨⟨rfl, by norm_num⟩, claim_C2_evasion_timer.2.1 _ 8 (by norm_num), ?_, ?_⟩
  · exact (claim_C2_evasion_timer.2.2.2.2.2 _ [] 1 (1 / 50) ⟨7, 10⟩ rfl).1
  · exact (claim_C2_evasion_timer.2.2.2.2.2 _ [] 1 (1 / 50) ⟨7, 10⟩ rfl).2

/-- Claim C8: for the agent and every adversary, after construction, after
reset and after every other operation including update, the interpolation
progress lies in [0,1] and the target cell is null exactly when progress is
zero. -/
theorem claim_C8_progress_invariant :
    playerMotionInv Player.initial ∧
    (∀ p : Player, playerMotionInv (Player.reset p)) ∧
    (∀ (p : Player) (d : Direction), playerMotionInv p →
      playerMotionInv (Player.queueDirection d p)) ∧
    (∀ (p : Player) (fuel : Nat) (delta : ℚ), playerMotionInv p →
      playerMotionInv (Player.update fuel delta p)) ∧
    (∀ (g : Ghost) (mode : GhostMode), ghostMotionInv (Ghost.reset mode g)) ∧
    (∀ (g : Ghost) (mode : GhostMode), ghostMotionInv g →
      ghostMotionInv (Ghost.setMode mode g)) ∧
    (∀ (g : Ghost) (dur : ℚ), ghostMotionInv g →
      ghostMotionInv (Ghost.setFrightened dur g)) ∧
    (∀ g : Ghost, ghostMotionInv (Ghost.onEaten g)) ∧
    (∀ (g : Ghost) (rng : List Nat) (fuel : Nat) (delta : ℚ) (pc : GridPosition),
      ghostMotionInv g → ghostMotionInv (Ghost.update rng fuel delta pc g)) := by
  refine ⟨by simp [playerMotionInv, Player.initial],
    fun p => by simp [playerMotionInv, Player.reset],
    fun p d h => h,
    fun p fuel delta h => player_moveLoop_motion _ _ _ h,
    fun g mode => by simp [ghostMotionInv, Ghost.reset],
    fun g mode h => by unfold Ghost.setMode; split_ifs <;> exact h,
    fun g dur h => by unfold Ghost.setFrightened; split_ifs <;> exact h,
    fun g => by simp [ghostMotionInv, Ghost.onEaten],
    ?_⟩
  intro g rng fuel delta pc h
  simp only [Ghost.update]
  split_ifs <;> first
    | exact h
    | exact ghost_moveLoop_motion _ _ _ _ _ h

/-- Witness for C8: the freshly constructed player, an updated player, and a
reset and then updated ghost all satisfy the invariant. -/
theorem claim_C8_progress_invariant_witness :
    playerMotionInv Player.initial ∧
    playerMotionInv (Player.update 3 (1 / 100) Player.initial) ∧
    ghostMotionInv (Ghost.reset .scatter
      ⟨⟨10, 9⟩, ⟨10, 11⟩, ⟨1, 1⟩, ⟨1, 1⟩, ⟨1, 1⟩, some ⟨1, 2⟩, some .right,
        1 / 2, .scatter, .frightened, 1 / 100, 0⟩) ∧
    ghostMotionInv (Ghost.update [] 3 (1 / 100) ⟨7, 10⟩ (Ghost.reset .scatter
      ⟨⟨10, 9⟩, ⟨10, 11⟩, ⟨1, 1⟩, ⟨1, 1⟩, ⟨1, 1⟩, some ⟨1, 2⟩, some .right,
        1 / 2, .scatter, .frightened, 1 / 100, 0⟩)) :=
  ⟨claim_C8_progress_invariant.1,
    claim_C8_progress_invariant.2.2.2.1 Player.initial 3 (1 / 100)
      claim_C8_progress_invariant.1,
    claim_C8_progress_invariant.2.2.2.2.1 _ .scatter,
    claim_C8_progress_invariant.2.2.2.2.2.2.2.2 _ [] 3 (1 / 100) ⟨7, 10⟩
      (claim_C8_progress_invariant.2.2.2.2.1 _ .scatter)⟩

theorem pickupPhase_frame (fuel : Nat) (delta : ℚ) (G : Game) :
    (Game.pickupPhase fuel delta G).lives = G.lives ∧
    (Game.pickupPhase fuel delta G).state = G.state ∧
    (Game.pickupPhase fuel delta G).scheduleIndex = G.scheduleIndex := by
  simp only [Game.pickupPhase]
  cases hc : (consumePelletAt G.maze
      (Player.getCell (Player.update fuel delta G.player))).1 with
  | none => exact ⟨rfl, rfl, rfl⟩
  | some k => cases k <;> exact ⟨rfl, rfl, rfl⟩

/-- Claim C5: when the remaining item count is zero after resolving the item
pickup, the tick transitions to win immediately and all further per-tick
logic is skipped: the result is exactly the post-pickup state with phase
win, so adversaries are not advanced and collisions are not resolved. -/
theorem claim_C5_win_immediately (rng : List Nat) (fuel : Nat) (delta : ℚ)
    (G : Game)
    (hzero : getRemainingPellets (Game.pickupPhase fuel delta G).maze = 0) :
    Game.updateSimulation rng fuel delta G =
      { Game.pickupPhase fuel delta G with state := .win } ∧
    (Game.updateSimulation rng fuel delta G).state = .win ∧
    (Game.updateSimulation rng fuel delta G).ghosts =
      (Game.pickupPhase fuel delta G).ghosts ∧
    (Game.updateSimulation rng fuel delta G).lives = G.lives := by
  have hmain : Game.updateSimulation rng fuel delta G =
      { Game.pickupPhase fuel delta G with state := .win } := by
    unfold Game.updateSimulation
    rw [if_pos hzero]
  refine ⟨hmain, by rw [hmain], by rw [hmain], ?_⟩
  rw [hmain]
  exact (pickupPhase_frame fuel delta G).1

/-- Claim C3: when the agent's settled cell holds a power item during a
playing tick, the pickup phase adds the power item's fixed 50 points and
invokes setFrightened with the configured 8-second duration on every
adversary; setFrightened leaves an adversary in recovery entirely unchanged
and otherwise sets the state to evasion with the remaining timer extended to
the maximum of its previous value and the duration, never shortened. -/
theorem claim_C3_power_pickup (G : Game) (fuel : Nat) (delta : ℚ)
    (hpow : (consumePelletAt G.maze
      (Player.getCell (Player.update fuel delta G.player))).1 =
        some PelletKind.power) :
    (Game.pickupPhase fuel delta G).score = G.score + 50 ∧
    (Game.pickupPhase fuel delta G).ghosts =
      G.ghosts.map (Ghost.setFrightened FRIGHTENED_DURATION) ∧
    FRIGHTENED_DURATION = 8 ∧
    (∀ gh : Ghost, gh.state = .respawn →
      Ghost.setFrightened FRIGHTENED_DURATION gh = gh) ∧
    (∀ gh : Ghost, ¬ gh.state = .respawn →
      (Ghost.setFrightened FRIGHTENED_DURATION gh).state = .frightened ∧
      (Ghost.setFrightened FRIGHTENED_DURATION gh).frightenedTimer =
        max gh.frightenedTimer FRIGHTENED_DURATION ∧
      gh.frightenedTimer ≤
        (Ghost.setFrightened FRIGHTENED_DURATION gh).frightenedTimer) := by
  refine ⟨?_, ?_, rfl, ?_, ?_⟩
  · simp only [Game.pickupPhase, hpow]
  · simp only [Game.pickupPhase, hpow]
  · intro gh h
    unfold Ghost.setFrightened
    rw [if_pos h]
  · intro gh h
    unfold Ghost.setFrightened
    rw [if_neg h]
    exact ⟨rfl, rfl, le_max_left _ _⟩

theorem handlePlayerHit_eq (G : Game) :
    Game.handlePlayerHit G =
      if G.lives - 1 ≤ 0 then
        { G with lives := G.lives - 1, state := .gameover }
      else
        { G with
          lives := G.lives - 1,
          state := .ready,
          scheduleIndex := 0,
          scheduleElapsed := 0,
          ghostMode := (MODE_SCHEDULE.headD (.chase, none)).1,
          player := Player.reset G.player,
          ghosts := (G.ghosts.map (Ghost.reset G.ghostMode)).map
            (Ghost.setMode (MODE_SCHEDULE.headD (.chase, none)).1) } := by
  simp only [Game.handlePlayerHit, Game.resetRoundPositions,
    Game.resetModeSchedule]

theorem collideLoop_maze (pos : ℚ × ℚ × ℚ) :
    ∀ (l : List Ghost) (G : Game) (acc : List Ghost),
      (Game.collideLoop pos G acc l).maze = G.maze := by
  intro l
  induction l with
  | nil => intro G acc; rfl
  | cons gh rest ih =>
      intro G acc
      unfold Game.collideLoop
      split_ifs with h1 h2 h3
      · exact ih _ _
      · exact ih _ _
      · exact ih _ _
      · rw [handlePlayerHit_eq]
        split_ifs <;> rfl

theorem collideLoop_lives (pos : ℚ × ℚ × ℚ) :
    ∀ (l : List Ghost) (G : Game) (acc : List Ghost),
      (Game.collideLoop pos G acc l).lives = G.lives ∨
      (Game.collideLoop pos G acc l).lives = G.lives - 1 := by
  intro l
  induction l with
  | nil => intro G acc; exact Or.inl rfl
  | cons gh rest ih =>
      intro G acc
      unfold Game.collideLoop
      split_ifs with h1 h2 h3
      · exact ih _ _
      · exact ih _ _
      · exact ih _ _
      · right
        rw [handlePlayerHit_eq]
        split_ifs <;> rfl

theorem collideLoop_hit (pos : ℚ × ℚ × ℚ) :
    ∀ (l : List Ghost) (G : Game) (acc : List Ghost),
      (∃ gh ∈ l, ghostHits pos gh) →
      (Game.collideLoop pos G acc l).lives = G.lives - 1 ∧
      ((Game.collideLoop pos G acc l).state = .gameover ∨
        (Game.collideLoop pos G acc l).state = .ready) := by
  intro l
  induction l with
  | nil =>
      intro G acc h
      exact absurd h (by simp)
  | cons gh rest ih =>
      intro G acc hex
      unfold Game.collideLoop
      split_ifs with h1 h2 h3
      · refine ih _ _ ?_
        rcases hex with ⟨g0, hg0, hhit⟩
        rcases List.mem_cons.mp hg0 with rfl | hmem
        · exact absurd h1 hhit.1
        · exact ⟨g0, hmem, hhit⟩
      · refine ih _ _ ?_
        rcases hex with ⟨g0, hg0, hhit⟩
        rcases List.mem_cons.mp hg0 with rfl | hmem
        · rcases hhit.2 with h | h <;> rw [h2] at h <;> simp at h
        · exact ⟨g0, hmem, hhit⟩
      · refine ih _ _ ?_
        rcases hex with ⟨g0, hg0, hhit⟩
        rcases List.mem_cons.mp hg0 with rfl | hmem
        · rcases hhit.2 with h | h <;> rw [h3] at h <;> simp at h
        · exact ⟨g0, hmem, hhit⟩
      · rw [handlePlayerHit_eq]
        constructor
        · split_ifs <;> rfl
        · split_ifs with h4
          · exact Or.inl rfl
          · exact Or.inr rfl

/-- Claim C4: an agent hit decrements lives by exactly one; at zero or below
the phase becomes gameover with no position reset, otherwise the phase
becomes ready, the agent and every adversary are teleported to their spawn
cells and the mode schedule restarts at its first entry while score and
pellet overlay are untouched; a pursue/patrol adversary within the collision
distance triggers the hit, and collision resolution processes at most one
hit per tick (lives drop by at most one even with several in range). -/
theorem claim_C4_collision_hit (G : Game) :
    (Game.handlePlayerHit G).lives = G.lives - 1 ∧
    (G.lives - 1 ≤ 0 →
      (Game.handlePlayerHit G).state = .gameover ∧
      (Game.handlePlayerHit G).player = G.player ∧
      (Game.handlePlayerHit G).ghosts = G.ghosts ∧
      (Game.handlePlayerHit G).maze = G.maze ∧
      (Game.handlePlayerHit G).score = G.score) ∧
    (0 < G.lives - 1 →
      (Game.handlePlayerHit G).state = .ready ∧
      (Game.handlePlayerHit G).player = Player.reset G.player ∧
      (Player.reset G.player).currentCell = playerSpawn ∧
      (Game.handlePlayerHit G).ghosts =
        (G.ghosts.map (Ghost.reset G.ghostMode)).map
          (Ghost.setMode (MODE_SCHEDULE.headD (.chase, none)).1) ∧
      (∀ gh : Ghost,
        (Ghost.setMode (MODE_SCHEDULE.headD (.chase, none)).1
          (Ghost.reset G.ghostMode gh)).currentCell = gh.spawnCell) ∧
      (Game.handlePlayerHit G).scheduleIndex = 0 ∧
      (Game.handlePlayerHit G).scheduleElapsed = 0 ∧
      (Game.handlePlayerHit G).score = G.score ∧
      (Game.handlePlayerHit G).maze = G.maze) ∧
    ((Game.resolveCollisions G).lives = G.lives ∨
      (Game.resolveCollisions G).lives = G.lives - 1) ∧
    (Game.resolveCollisions G).maze = G.maze ∧
    ((∃ gh ∈ G.ghosts,
        distSqQ (Player.worldPosition G.player) gh.worldPosition ≤
          COLLISION_DISTANCE ^ 2 ∧
        (gh.state = .chase ∨ gh.state = .scatter)) →
      (Game.resolveCollisions G).lives = G.lives - 1 ∧
      ((Game.resolveCollisions G).state = .gameover ∨
        (Game.resolveCollisions G).state = .ready)) := by
  refine ⟨?_, ?_, ?_, ?_, ?_, ?_⟩
  · rw [handlePlayerHit_eq]
    split_ifs <;> rfl
  · intro h
    rw [handlePlayerHit_eq, if_pos h]
    exact ⟨rfl, rfl, rfl, rfl, rfl⟩
  · intro h
    rw [handlePlayerHit_eq, if_neg (not_le.mpr h)]
    refine ⟨rfl, rfl, rfl, rfl, ?_, rfl, rfl, rfl, rfl⟩
    intro gh
    unfold Ghost.setMode
    split_ifs <;> rfl
  · exact collideLoop_lives _ G.ghosts G []
  · exact collideLoop_maze _ G.ghosts G []
  · intro hex
    obtain ⟨g0, hm, hd, hs⟩ := hex
    exact collideLoop_hit _ G.ghosts G [] ⟨g0, hm, not_lt.mpr hd, hs⟩

/-- Witness: in wGame3 the pickup phase finds the power pellet, adds 50 and
frightens the ghost list. -/
theorem claim_C3_power_pickup_witness :
    (consumePelletAt wGame3.maze
      (Player.getCell (Player.update 1 0 wGame3.player))).1 =
        some PelletKind.power ∧
    (Game.pickupPhase 1 0 wGame3).score = wGame3.score + 50 ∧
    (Game.pickupPhase 1 0 wGame3).ghosts =
      wGame3.ghosts.map (Ghost.setFrightened FRIGHTENED_DURATION) := by
  have hpow : (consumePelletAt wGame3.maze
      (Player.getCell (Player.update 1 0 wGame3.player))).1 =
        some PelletKind.power := by decide
  have h := claim_C3_power_pickup wGame3 1 0 hpow
  exact ⟨hpow, h.1, h.2.1⟩

/-- Witness: consuming the last pellet of wGame5 wins the tick. -/
theorem claim_C5_win_immediately_witness :
    getRemainingPellets (Game.pickupPhase 1 0 wGame5).maze = 0 ∧
    (Game.updateSimulation [] 1 0 wGame5).state = .win := by
  have hz : getRemainingPellets (Game.pickupPhase 1 0 wGame5).maze = 0 := by
    decide
  exact ⟨hz, (claim_C5_win_immediately [] 1 0 wGame5 hz).2.1⟩

/-- Witness: the chasing ghost of wGame4 overlapping the player costs a life
and resets the round, and the last-life variant ends the match. -/
theorem claim_C4_collision_hit_witness :
    (0 : ℤ) < wGame4.lives - 1 ∧
    (∃ gh ∈ wGame4.ghosts,
      distSqQ (Player.worldPosition wGame4.player) gh.worldPosition ≤
        COLLISION_DISTANCE ^ 2 ∧
      (gh.state = .chase ∨ gh.state = .scatter)) ∧
    (Game.handlePlayerHit wGame4).state = .ready ∧
    (Game.handlePlayerHit wGame4).lives = wGame4.lives - 1 ∧
    (Game.resolveCollisions wGame4).lives = wGame4.lives - 1 ∧
    wGame4go.lives - 1 ≤ 0 ∧
    (Game.handlePlayerHit wGame4go).state = .gameover ∧
    (Game.handlePlayerHit wGame4go).ghosts = wGame4go.ghosts := by
  have hlt : (0 : ℤ) < wGame4.lives - 1 := by decide
  have hle : wGame4go.lives - 1 ≤ 0 := by decide
  have hdist : distSqQ (Player.worldPosition wGame4.player)
      wGhost4.worldPosition ≤ COLLISION_DISTANCE ^ 2 := by
    norm_num [distSqQ, Player.worldPosition, Ghost.worldPosition, wGame4,
      wPlayer4, wGhost4, gridToWorldQ, playerRadius, ghostHeight,
      COLLISION_DISTANCE, mazeRows, mazeCols, baseGrid]
  have hmem : wGhost4 ∈ wGame4.ghosts := by simp [wGame4]
  have h := claim_C4_collision_hit wGame4
  have hgo := claim_C4_collision_hit wGame4go
  refine ⟨hlt, ⟨wGhost4, hmem, hdist, Or.inl rfl⟩, (h.2.2.1 hlt).1, h.1,
    (h.2.2.2.2.2 ⟨wGhost4, hmem, hdist, Or.inl rfl⟩).1, hle,
    (hgo.2.1 hle).1, (hgo.2.1 hle).2.2.1⟩

end Pacman
